import Mathlib

/-!
# Verification of the rommbuddy identity-resolution / verification / enrichment core

Shallow embedding of the Rust sources under `src-tauri/src` of the rommbuddy
repository, together with proofs about the embedded definitions.

Conventions used throughout:
* SQLite `INTEGER` (Rust `i64`) columns are modelled as `Int`; `TEXT` as
  `String`; nullable columns as `Option _`.
* SQL `COALESCE(a, b)` on two nullable values is modelled by `coalesce`;
  SQL equality `col = ?` never matches a `NULL` column, which the models
  mirror by comparing against `some v`.
* Database tables are modelled as lists of row structures, in insertion
  order; `SELECT ... LIMIT 1` is modelled by `List.find?`.
* Timestamp columns (`updated_at`, `fetched_at`, ...) carry no logical
  content for the claims below and are threaded as plain strings or omitted.
-/

namespace RommBuddy

/-- SQL `COALESCE` over two nullable values. -/
def coalesce {α : Type} : Option α → Option α → Option α
  | some a, _ => some a
  | none, b => b

@[simp] theorem coalesce_some {α : Type} (a : α) (b : Option α) :
    coalesce (some a) b = some a := rfl

@[simp] theorem coalesce_none {α : Type} (b : Option α) :
    coalesce none b = b := rfl

/-! ## DAT catalog rows (`src-tauri/src/entity/dat_entries.rs`, used by
`metadata/dat.rs`) -/

/-- A row of the `dat_entries` table. -/
structure DatEntryRow where
  id : Int
  dat_file_id : Int
  game_name : String
  rom_name : String
  size : Option Int
  crc32 : Option String
  md5 : Option String
  sha1 : Option String
  status : Option String
  deriving Repr, DecidableEq

/-! ## `find_dat_match` (`src-tauri/src/metadata/dat.rs`, lines 484-531)

The Rust function issues three `SELECT ... LIMIT 1` queries in order
(SHA1, then MD5, then CRC32), returning the first hit.  Each query is
modelled by `List.find?` over the table rows; a `NULL` hash column never
matches the bound value. -/

/-- The CRC32 fallback (last query) of `find_dat_match`. -/
def find_dat_match_crc (entries : List DatEntryRow) (crc : Option String) :
    Option (Int × String × Option String) :=
  match crc with
  | some crc_val =>
    match entries.find? (fun e => e.crc32 == some crc_val) with
    | some row => some (row.id, row.game_name, row.status)
    | none => none
  | none => none

/-- The MD5 fallback (second query) of `find_dat_match`. -/
def find_dat_match_md5 (entries : List DatEntryRow) (crc md5 : Option String) :
    Option (Int × String × Option String) :=
  match md5 with
  | some md5_val =>
    match entries.find? (fun e => e.md5 == some md5_val) with
    | some row => some (row.id, row.game_name, row.status)
    | none => find_dat_match_crc entries crc
  | none => find_dat_match_crc entries crc

/-- `find_dat_match`: try SHA1 first, then MD5, then CRC32.  Returns
`(id, game_name, status)` of the first matching `dat_entries` row. -/
def find_dat_match (entries : List DatEntryRow)
    (crc md5 sha1 : Option String) : Option (Int × String × Option String) :=
  match sha1 with
  | some sha1_val =>
    match entries.find? (fun e => e.sha1 == some sha1_val) with
    | some row => some (row.id, row.game_name, row.status)
    | none => find_dat_match_md5 entries crc md5
  | none => find_dat_match_md5 entries crc md5

/-! ## `verify_roms` per-entry classification
(`src-tauri/src/metadata/dat.rs`, lines 442-481)

After hash resolution the loop body looks the entry up via `find_dat_match`
and issues one of three updates; `classify_rom` captures that decision. -/

/-- The database update `verify_roms` performs for one entry after its
hashes are resolved. -/
inductive VerifyUpdate where
  /-- `UPDATE roms SET verification_status = v, dat_entry_id = i,
  dat_game_name = g`. -/
  | set_match (verification : String) (dat_entry_id : Int) (dat_game_name : String)
  /-- `UPDATE roms SET verification_status = 'unverified'` (no DAT linkage
  touched). -/
  | set_unverified
  /-- No update; the entry is counted as `not_checked`. -/
  | skip_not_checked
  deriving Repr, DecidableEq

/-- The classification branch of the `verify_roms` loop body: a DAT match
with status `"baddump"` becomes `bad_dump`, any other match `verified`
(recording the entry id and game name), no match with at least one hash
becomes `unverified`, and no hashes at all is `not_checked`. -/
def classify_rom (entries : List DatEntryRow)
    (crc md5 sha1 : Option String) : VerifyUpdate :=
  match find_dat_match entries crc md5 sha1 with
  | some (entry_id, game_name, status) =>
    .set_match (if status == some "baddump" then "bad_dump" else "verified")
      entry_id game_name
  | none =>
    if crc.isSome || md5.isSome || sha1.isSome then .set_unverified
    else .skip_not_checked

/-! ### C3: lookup precedence SHA1 → MD5 → CRC32 -/

/-- **C3.** DAT lookup tries SHA1 first, then MD5, then CRC32, and returns
the first reference entry matched by the strongest present hash kind: a
present SHA1 that matches some row wins no matter what CRC32/MD5 were
queried (so a SHA1-matched record with a differing CRC32 is still
returned); only when a hash kind is absent or matches nothing does lookup
fall through to the next weaker kind. -/
theorem find_dat_match_strongest_hash_wins (entries : List DatEntryRow)
    (crc md5 : Option String) :
    (∀ s row, entries.find? (fun e => e.sha1 == some s) = some row →
      find_dat_match entries crc md5 (some s) =
        some (row.id, row.game_name, row.status))
    ∧ (∀ s, entries.find? (fun e => e.sha1 == some s) = none →
      find_dat_match entries crc md5 (some s) = find_dat_match_md5 entries crc md5)
    ∧ find_dat_match entries crc md5 none = find_dat_match_md5 entries crc md5
    ∧ (∀ m row, entries.find? (fun e => e.md5 == some m) = some row →
      find_dat_match_md5 entries crc (some m) =
        some (row.id, row.game_name, row.status))
    ∧ (∀ m, entries.find? (fun e => e.md5 == some m) = none →
      find_dat_match_md5 entries crc (some m) = find_dat_match_crc entries crc)
    ∧ find_dat_match_md5 entries crc none = find_dat_match_crc entries crc
    ∧ (∀ c row, entries.find? (fun e => e.crc32 == some c) = some row →
      find_dat_match_crc entries (some c) =
        some (row.id, row.game_name, row.status)) := by
  refine ⟨fun s row h => ?_, fun s h => ?_, rfl, fun m row h => ?_,
    fun m h => ?_, rfl, fun c row h => ?_⟩
  · simp only [find_dat_match, h]
  · simp only [find_dat_match, h]
  · simp only [find_dat_match_md5, h]
  · simp only [find_dat_match_md5, h]
  · simp only [find_dat_match_crc, h]

/-- A reference entry whose SHA1 matches the query but whose CRC32 differs
from the queried CRC32. -/
def sha1MatchCrcMismatchEntry : DatEntryRow :=
  { id := 7, dat_file_id := 1, game_name := "Test Game (USA)",
    rom_name := "test.nes", size := some 32768,
    crc32 := some "BBBBBBBB", md5 := some "ffffffffffffffffffffffffffffffff",
    sha1 := some "aaaaaaaaaaaaaaaaaaaaaaaaaaaaaaaaaaaaaaaa",
    status := none }

/-- Witness for C3: with a SHA1 match present and a mismatching CRC32
queried, lookup returns the SHA1-matched record. -/
theorem find_dat_match_strongest_hash_wins_witness :
    find_dat_match [sha1MatchCrcMismatchEntry] (some "CCCCCCCC") none
      (some "aaaaaaaaaaaaaaaaaaaaaaaaaaaaaaaaaaaaaaaa") =
      some (7, "Test Game (USA)", none) :=
  (find_dat_match_strongest_hash_wins [sha1MatchCrcMismatchEntry]
    (some "CCCCCCCC") none).1 "aaaaaaaaaaaaaaaaaaaaaaaaaaaaaaaaaaaaaaaa"
    sha1MatchCrcMismatchEntry (by rfl)

/-! ### C4: verification classification -/

/-- **C4.** For an entry processed by `verify_roms` with at least one hash
available: a DAT match whose status is `"baddump"` yields
`verification_status = bad_dump`; any other DAT match yields `verified`
and records the matched game name and reference-entry id; no DAT match
yields `unverified`.  Since every non-`"baddump"` status (including an
absent one) lands in the `verified` branch, `"baddump"` is the only status
value that changes the classification. -/
theorem verify_roms_classification (entries : List DatEntryRow)
    (crc md5 sha1 : Option String)
    (hhash : crc.isSome || md5.isSome || sha1.isSome) :
    (∀ i g, find_dat_match entries crc md5 sha1 = some (i, g, some "baddump") →
      classify_rom entries crc md5 sha1 = .set_match "bad_dump" i g)
    ∧ (∀ i g s, find_dat_match entries crc md5 sha1 = some (i, g, s) →
      s ≠ some "baddump" →
      classify_rom entries crc md5 sha1 = .set_match "verified" i g)
    ∧ (find_dat_match entries crc md5 sha1 = none →
      classify_rom entries crc md5 sha1 = .set_unverified) := by
  refine ⟨fun i g h => ?_, fun i g s h hs => ?_, fun h => ?_⟩
  · simp [classify_rom, h]
  · simp [classify_rom, h, hs]
  · simp [classify_rom, h, hhash]

/-- A `"baddump"` reference entry used by the C4 witness. -/
def baddumpEntry : DatEntryRow :=
  { id := 3, dat_file_id := 1, game_name := "Bad Game",
    rom_name := "bad.nes", size := none,
    crc32 := none, md5 := none,
    sha1 := some "1111111111111111111111111111111111111111",
    status := some "baddump" }

/-- Witness for C4: a matched `"baddump"` entry is classified `bad_dump`
with its id and game name recorded; with a hash present and no match the
classification is `unverified`. -/
theorem verify_roms_classification_witness :
    classify_rom [baddumpEntry] none none
        (some "1111111111111111111111111111111111111111") =
      .set_match "bad_dump" 3 "Bad Game"
    ∧ classify_rom [] (some "ABCD1234") none none = .set_unverified :=
  ⟨(verify_roms_classification [baddumpEntry] none none
      (some "1111111111111111111111111111111111111111") (by decide)).1
      3 "Bad Game" (by rfl),
   (verify_roms_classification [] (some "ABCD1234") none none (by decide)).2.2
      (by rfl)⟩

/-! ## Catalog data model
(`src-tauri/src/entity/*.rs`; columns irrelevant to the verified logic,
such as `created_at` timestamps, are omitted) -/

/-- A row of the `roms` table (the columns read and written by
`dedup.rs`). -/
structure Rom where
  id : Int
  platform_id : Int
  name : String
  file_name : String
  file_size : Option Int
  regions : String
  hash_md5 : Option String
  deriving Repr, DecidableEq

/-- A row of the `source_roms` table; `(rom_id, source_id)` is unique
(the `ON CONFLICT(rom_id, source_id)` clause of `link_source`). -/
structure SourceRom where
  rom_id : Int
  source_id : Int
  source_rom_id : Option String
  source_url : Option String
  file_name : Option String
  hash_md5 : Option String
  deriving Repr, DecidableEq

/-- A row of the `metadata` table; `rom_id` is unique
(`entity/metadata.rs`).  The `f64` rating column is modelled as an exact
rational: every claim below depends only on its presence, never on
rounding. -/
structure MetadataRow where
  rom_id : Int
  description : Option String
  developer : Option String
  publisher : Option String
  genres : String
  themes : String
  rating : Option Rat
  release_date : Option String
  igdb_id : Option Int
  metadata_fetched_at : Option String
  deriving Repr, DecidableEq

/-- A row of the `artwork` table; `(rom_id, art_type, url)` is unique (the
`ON CONFLICT(rom_id, art_type, url)` clauses in `metadata/mod.rs`). -/
structure ArtworkRow where
  rom_id : Int
  art_type : String
  url : Option String
  deriving Repr, DecidableEq

/-- A row of the `library` table; `(rom_id, source_id)` is unique (the
`ON CONFLICT(rom_id, source_id)` clause in `commands.rs`). -/
structure LibraryRow where
  rom_id : Int
  source_id : Int
  favorite : Int
  play_count : Int
  last_played_at : Option String
  deriving Repr, DecidableEq

/-- A row of the `hasheous_cache` table; `rom_id` is unique
(`entity/hasheous_cache.rs`; payload columns beyond those the embedded
logic reads are omitted). -/
structure HasheousCacheRow where
  rom_id : Int
  name : Option String
  igdb_game_id : Option Int
  deriving Repr, DecidableEq

/-- The relational store, one list per table, in insertion order.
`next_rom_id` models the SQLite autoincrement id handed out by
`INSERT ... RETURNING id`. -/
structure Db where
  roms : List Rom
  source_roms : List SourceRom
  metadata : List MetadataRow
  artwork : List ArtworkRow
  library : List LibraryRow
  hasheous_cache : List HasheousCacheRow
  next_rom_id : Int
  deriving Repr, DecidableEq

/-! ## Identity resolver (`src-tauri/src/dedup.rs`) -/

/-- `find_existing_rom_by_hash` (`dedup.rs` lines 6-19):
`SELECT id FROM roms WHERE platform_id = ? AND hash_md5 = ? LIMIT 1`. -/
def find_existing_rom_by_hash (roms : List Rom) (platform_id : Int)
    (hash_md5 : String) : Option Int :=
  (roms.find? fun r =>
    r.platform_id == platform_id && r.hash_md5 == some hash_md5).map (·.id)

/-- `find_existing_rom_by_filename` (`dedup.rs` lines 22-35):
`SELECT id FROM roms WHERE platform_id = ? AND file_name = ? LIMIT 1`. -/
def find_existing_rom_by_filename (roms : List Rom) (platform_id : Int)
    (file_name : String) : Option Int :=
  (roms.find? fun r =>
    r.platform_id == platform_id && r.file_name == file_name).map (·.id)

/-- The `DO UPDATE SET` arm of `link_source`: on a `(rom_id, source_id)`
conflict each column is coalesced with the `excluded` (new) value first. -/
def link_source_update (rom_id source_id : Int)
    (source_rom_id source_url file_name hash_md5 : Option String)
    (l : SourceRom) : SourceRom :=
  if l.rom_id == rom_id && l.source_id == source_id then
    { l with
      source_rom_id := coalesce source_rom_id l.source_rom_id
      source_url := coalesce source_url l.source_url
      file_name := coalesce file_name l.file_name
      hash_md5 := coalesce hash_md5 l.hash_md5 }
  else l

/-- `link_source` (`dedup.rs` lines 114-141): insert a `source_roms` row,
or on conflict of `(rom_id, source_id)` apply `link_source_update` to the
conflicting row. -/
def link_source (links : List SourceRom) (rom_id source_id : Int)
    (source_rom_id source_url file_name hash_md5 : Option String) :
    List SourceRom :=
  if links.any fun l => l.rom_id == rom_id && l.source_id == source_id then
    links.map (link_source_update rom_id source_id source_rom_id source_url
      file_name hash_md5)
  else
    links ++ [{ rom_id := rom_id, source_id := source_id,
                source_rom_id := source_rom_id, source_url := source_url,
                file_name := file_name, hash_md5 := hash_md5 }]

/-- The `UPDATE roms SET ...` of the filename-match branch of
`upsert_rom_deduped` (`dedup.rs` lines 72-88): `COALESCE(NULLIF(?, ''),
name)`, `COALESCE(?, file_size)`, `CASE WHEN ? != '[]' THEN ? ELSE regions
END`, `COALESCE(?, hash_md5)`. -/
def merge_rom_fields (r : Rom) (name : String) (file_size : Option Int)
    (regions : String) (hash_md5 : Option String) : Rom :=
  { r with
    name := if name = "" then r.name else name
    file_size := coalesce file_size r.file_size
    regions := if regions ≠ "[]" then regions else r.regions
    hash_md5 := coalesce hash_md5 r.hash_md5 }

/-- Phase 3 of `upsert_rom_deduped` (`dedup.rs` lines 94-110): insert a
new `roms` row and link the source. -/
def upsert_rom_deduped_phase3 (db : Db) (platform_id : Int)
    (name file_name : String) (file_size : Option Int) (regions : String)
    (hash_md5 : Option String) (source_id : Int)
    (source_rom_id source_url : Option String) : Db × Int :=
  let rom_id := db.next_rom_id
  let rom : Rom :=
    { id := rom_id, platform_id := platform_id, name := name,
      file_name := file_name, file_size := file_size, regions := regions,
      hash_md5 := hash_md5 }
  ({ db with
      roms := db.roms ++ [rom]
      source_roms := link_source db.source_roms rom_id source_id
        source_rom_id source_url (some file_name) hash_md5
      next_rom_id := rom_id + 1 },
    rom_id)

/-- The row map realising `UPDATE roms SET ... WHERE id = ?` of phase 2:
only the row with the matched id is merge-updated. -/
def upsert_merge_row (rom_id : Int) (name : String) (file_size : Option Int)
    (regions : String) (hash_md5 : Option String) (r : Rom) : Rom :=
  if r.id == rom_id then merge_rom_fields r name file_size regions hash_md5
  else r

/-- Phase 2 of `upsert_rom_deduped` (`dedup.rs` lines 69-92): on a
`(platform, filename)` match, merge-update that row and link the source;
otherwise fall through to phase 3. -/
def upsert_rom_deduped_phase2 (db : Db) (platform_id : Int)
    (name file_name : String) (file_size : Option Int) (regions : String)
    (hash_md5 : Option String) (source_id : Int)
    (source_rom_id source_url : Option String) : Db × Int :=
  match find_existing_rom_by_filename db.roms platform_id file_name with
  | some rom_id =>
    ({ db with
        roms := db.roms.map
          (upsert_merge_row rom_id name file_size regions hash_md5)
        source_roms := link_source db.source_roms rom_id source_id
          source_rom_id source_url (some file_name) hash_md5 },
      rom_id)
  | none =>
    upsert_rom_deduped_phase3 db platform_id name file_name file_size
      regions hash_md5 source_id source_rom_id source_url

/-- `upsert_rom_deduped` (`dedup.rs` lines 46-111): phase 1 links to a
`(platform, hash)` match without touching its fields; otherwise phases
2/3. -/
def upsert_rom_deduped (db : Db) (platform_id : Int)
    (name file_name : String) (file_size : Option Int) (regions : String)
    (hash_md5 : Option String) (source_id : Int)
    (source_rom_id source_url : Option String) : Db × Int :=
  match hash_md5 with
  | some hash =>
    if hash ≠ "" then
      match find_existing_rom_by_hash db.roms platform_id hash with
      | some rom_id =>
        ({ db with
            source_roms := link_source db.source_roms rom_id source_id
              source_rom_id source_url (some file_name) hash_md5 },
          rom_id)
      | none =>
        upsert_rom_deduped_phase2 db platform_id name file_name file_size
          regions hash_md5 source_id source_rom_id source_url
    else
      upsert_rom_deduped_phase2 db platform_id name file_name file_size
        regions hash_md5 source_id source_rom_id source_url
  | none =>
    upsert_rom_deduped_phase2 db platform_id name file_name file_size
      regions hash_md5 source_id source_rom_id source_url

/-! ## Reconciliation pass (`src-tauri/src/dedup.rs`, lines 145-233) -/

/-- The `WHERE platform_id = ? AND hash_md5 = ?` row predicate shared by
the duplicate-group queries of `reconcile_duplicates`. -/
def rom_group_pred (platform_id : Int) (hash_md5 : String) (r : Rom) : Bool :=
  r.platform_id == platform_id && r.hash_md5 == some hash_md5

/-- Number of `roms` rows in a `(platform_id, hash_md5)` group. -/
def romCount (roms : List Rom) (platform_id : Int) (hash_md5 : String) : Nat :=
  (roms.filter (rom_group_pred platform_id hash_md5)).length

/-- `SELECT platform_id, hash_md5 FROM roms WHERE hash_md5 IS NOT NULL AND
hash_md5 != '' GROUP BY platform_id, hash_md5 HAVING COUNT(*) > 1`.  SQL
leaves the order of the groups unspecified; the model fixes one
deduplicated enumeration of the qualifying keys. -/
def duplicate_groups (roms : List Rom) : List (Int × String) :=
  ((roms.filterMap fun r =>
      match r.hash_md5 with
      | some h => if h ≠ "" then some (r.platform_id, h) else none
      | none => none).dedup).filter
    fun g => 1 < romCount roms g.1 g.2

/-- `SELECT id FROM roms WHERE platform_id = ? AND hash_md5 = ? ORDER BY
id` (`dedup.rs` lines 161-167). -/
def sorted_group_ids (roms : List Rom) (platform_id : Int)
    (hash_md5 : String) : List Int :=
  ((roms.filter (rom_group_pred platform_id hash_md5)).map (·.id)).insertionSort
    (· ≤ ·)

/-- `UPDATE OR IGNORE t SET rom_id = keeper WHERE rom_id = dupe` for a
child table whose uniqueness constraint is `(rom_id, key ·)`: a row of the
duplicate moves to the keeper unless the keeper already has a row with the
same key, in which case the row is left in place (`OR IGNORE`). -/
def update_or_ignore_rom_id {ρ κ : Type} [DecidableEq κ]
    (romId : ρ → Int) (key : ρ → κ) (withRomId : ρ → Int → ρ)
    (keeper dupe : Int) (rows : List ρ) : List ρ :=
  rows.map fun r =>
    if romId r == dupe &&
        !(rows.any fun s => romId s == keeper && key s == key r) then
      withRomId r keeper
    else r

/-- One iteration of the inner loop of `reconcile_duplicates`
(`dedup.rs` lines 176-229): retarget the five child tables from the
duplicate onto the keeper with `UPDATE OR IGNORE`, then delete the
duplicate `roms` row.  The trailing per-table filters model the
`ON DELETE CASCADE` of the schema, which lives in the migrations (not
under `src/`); `dedup.rs` line 222 documents it ("CASCADE will clean up
orphaned rows"). -/
def merge_dupe (db : Db) (keeper dupe : Int) : Db :=
  { roms := db.roms.filter fun r => !(r.id == dupe)
    source_roms :=
      (update_or_ignore_rom_id (·.rom_id) (·.source_id)
        (fun l k => { l with rom_id := k }) keeper dupe
        db.source_roms).filter fun l => !(l.rom_id == dupe)
    metadata :=
      (update_or_ignore_rom_id (·.rom_id) (fun _ => ())
        (fun m k => { m with rom_id := k }) keeper dupe
        db.metadata).filter fun m => !(m.rom_id == dupe)
    artwork :=
      (update_or_ignore_rom_id (·.rom_id) (fun a => (a.art_type, a.url))
        (fun a k => { a with rom_id := k }) keeper dupe
        db.artwork).filter fun a => !(a.rom_id == dupe)
    library :=
      (update_or_ignore_rom_id (·.rom_id) (·.source_id)
        (fun l k => { l with rom_id := k }) keeper dupe
        db.library).filter fun l => !(l.rom_id == dupe)
    hasheous_cache :=
      (update_or_ignore_rom_id (·.rom_id) (fun _ => ())
        (fun h k => { h with rom_id := k }) keeper dupe
        db.hasheous_cache).filter fun h => !(h.rom_id == dupe)
    next_rom_id := db.next_rom_id }

/-- One iteration of the outer loop of `reconcile_duplicates`
(`dedup.rs` lines 159-230): re-read the group's ids ordered by id, keep
the lowest, merge every other member into it, counting each merge. -/
def reconcile_group (db : Db) (platform_id : Int) (hash_md5 : String) :
    Db × Nat :=
  let rom_ids := sorted_group_ids db.roms platform_id hash_md5
  if rom_ids.length < 2 then (db, 0)
  else
    match rom_ids with
    | [] => (db, 0)
    | keeper :: dupes =>
      dupes.foldl (fun acc d => (merge_dupe acc.1 keeper d, acc.2 + 1)) (db, 0)

/-- `reconcile_duplicates` (`dedup.rs` lines 145-233): merge every
`(platform_id, non-empty hash_md5)` duplicate group down to its lowest-id
member and return the number of entries merged. -/
def reconcile_duplicates (db : Db) : Db × Nat :=
  (duplicate_groups db.roms).foldl
    (fun acc g =>
      let r := reconcile_group acc.1 g.1 g.2
      (r.1, acc.2 + r.2))
    (db, 0)

/-! ### Facts about the reconciliation pass -/

theorem rom_group_pred_eq_true {p : Int} {h : String} {r : Rom} :
    rom_group_pred p h r = true ↔ r.platform_id = p ∧ r.hash_md5 = some h := by
  simp [rom_group_pred]

theorem merge_dupe_roms (db : Db) (k d : Int) :
    (merge_dupe db k d).roms = db.roms.filter fun r => !(r.id == d) := rfl

theorem merge_fold_roms (k : Int) (ds : List Int) :
    ∀ (db : Db) (n : Nat),
      ((ds.foldl (fun acc d => (merge_dupe acc.1 k d, acc.2 + 1)) (db, n)).1).roms
        = db.roms.filter fun r => ds.all fun d => !(r.id == d) := by
  induction ds with
  | nil =>
    intro db n
    simp
  | cons d ds ih =>
    intro db n
    rw [List.foldl_cons, ih, merge_dupe_roms, List.filter_filter]
    refine List.filter_congr fun r _ => ?_
    rw [List.all_cons, Bool.and_comm]

theorem merge_fold_count (k : Int) (ds : List Int) :
    ∀ (db : Db) (n : Nat),
      (ds.foldl (fun acc d => (merge_dupe acc.1 k d, acc.2 + 1)) (db, n)).2
        = n + ds.length := by
  induction ds with
  | nil => intro db n; simp
  | cons d ds ih =>
    intro db n
    rw [List.foldl_cons, ih]
    simp only [List.length_cons]
    omega

theorem reconcile_group_roms (db : Db) (p : Int) (h : String) :
    (reconcile_group db p h).1.roms
      = db.roms.filter fun r =>
          (sorted_group_ids db.roms p h).tail.all fun d => !(r.id == d) := by
  unfold reconcile_group
  rcases hids : sorted_group_ids db.roms p h with _ | ⟨k, ds⟩
  · simp
  · rcases ds with _ | ⟨d, t⟩
    · simp
    · simp only [List.length_cons, List.tail_cons]
      rw [if_neg (by omega)]
      exact merge_fold_roms k (d :: t) db 0

theorem reconcile_group_count (db : Db) (p : Int) (h : String) :
    (reconcile_group db p h).2 = (sorted_group_ids db.roms p h).tail.length := by
  unfold reconcile_group
  rcases hids : sorted_group_ids db.roms p h with _ | ⟨k, ds⟩
  · simp
  · rcases ds with _ | ⟨d, t⟩
    · simp
    · simp only [List.length_cons, List.tail_cons]
      rw [if_neg (by omega)]
      rw [merge_fold_count k (d :: t) db 0]
      simp only [List.length_cons]
      omega

theorem sorted_group_ids_perm (roms : List Rom) (p : Int) (h : String) :
    (sorted_group_ids roms p h).Perm
      ((roms.filter (rom_group_pred p h)).map (·.id)) :=
  List.perm_insertionSort _ _

theorem mem_sorted_group_ids {roms : List Rom} {p : Int} {h : String} {i : Int} :
    i ∈ sorted_group_ids roms p h ↔
      ∃ r ∈ roms.filter (rom_group_pred p h), r.id = i := by
  rw [(sorted_group_ids_perm roms p h).mem_iff]
  simp [List.mem_map]

theorem sorted_group_ids_nodup {roms : List Rom} (p : Int) (h : String)
    (hids : (roms.map (·.id)).Nodup) : (sorted_group_ids roms p h).Nodup :=
  ((sorted_group_ids_perm roms p h).symm.nodup
    (((roms.filter_sublist).map (·.id)).nodup hids))

theorem sorted_group_ids_sorted (roms : List Rom) (p : Int) (h : String) :
    List.Sorted (· ≤ ·) (sorted_group_ids roms p h) :=
  List.sorted_insertionSort _ _

theorem rom_eq_of_id_eq {roms : List Rom} (hids : (roms.map (·.id)).Nodup)
    {r s : Rom} (hr : r ∈ roms) (hs : s ∈ roms) (hid : r.id = s.id) : r = s :=
  List.inj_on_of_nodup_map hids hr hs hid

theorem group_pred_of_id_mem {roms : List Rom} {p : Int} {h : String} {r : Rom}
    (hids : (roms.map (·.id)).Nodup) (hr : r ∈ roms)
    (hmem : r.id ∈ sorted_group_ids roms p h) : rom_group_pred p h r = true := by
  obtain ⟨m, hm, hmid⟩ := mem_sorted_group_ids.mp hmem
  obtain ⟨hmr, hmpred⟩ := List.mem_filter.mp hm
  have : m = r := rom_eq_of_id_eq hids hmr hr hmid
  exact this ▸ hmpred

theorem romCount_filter_le (roms : List Rom) (q : Rom → Bool) (p : Int)
    (h : String) : romCount (roms.filter q) p h ≤ romCount roms p h :=
  (List.Sublist.filter _ (roms.filter_sublist)).length_le

theorem length_le_one_of_nodup_map_const {l : List Rom} {c : Int}
    (h1 : (l.map (·.id)).Nodup) (h2 : ∀ x ∈ l, x.id = c) : l.length ≤ 1 := by
  match l with
  | [] => simp
  | [a] => simp
  | a :: b :: t =>
    exfalso
    have ha : a.id = c := h2 a (by simp)
    have hb : b.id = c := h2 b (by simp)
    rw [List.map_cons, List.map_cons, List.nodup_cons] at h1
    exact h1.1 (by simp [ha, hb])

theorem reconcile_group_ids_nodup {db : Db} (p : Int) (h : String)
    (hids : (db.roms.map (·.id)).Nodup) :
    ((reconcile_group db p h).1.roms.map (·.id)).Nodup := by
  rw [reconcile_group_roms]
  exact ((db.roms.filter_sublist).map (·.id)).nodup hids

theorem reconcile_group_own_count (db : Db) (p : Int) (h : String)
    (hids : (db.roms.map (·.id)).Nodup) :
    romCount (reconcile_group db p h).1.roms p h ≤ 1 := by
  rw [reconcile_group_roms]
  rcases hsorted : sorted_group_ids db.roms p h with _ | ⟨k, ds⟩
  · -- empty group: the original count is already zero or the filter is a no-op
    refine le_trans (romCount_filter_le _ _ _ _) ?_
    have hperm := sorted_group_ids_perm db.roms p h
    rw [hsorted] at hperm
    have : ((db.roms.filter (rom_group_pred p h)).map (·.id)).length = 0 :=
      hperm.symm.length_eq
    simp only [List.length_map] at this
    simp [romCount, this]
  · -- nonempty group: the survivors all carry the head id
    unfold romCount
    rw [List.filter_filter]
    apply length_le_one_of_nodup_map_const (c := k)
    · exact ((db.roms.filter_sublist).map (·.id)).nodup hids
    · intro x hx
      obtain ⟨hxr, hxp⟩ := List.mem_filter.mp hx
      rw [Bool.and_eq_true] at hxp
      have hxid : x.id ∈ sorted_group_ids db.roms p h :=
        mem_sorted_group_ids.mpr ⟨x, List.mem_filter.mpr ⟨hxr, hxp.1⟩, rfl⟩
      rw [hsorted] at hxid
      rcases List.mem_cons.mp hxid with hk | hds
      · exact hk
      · exfalso
        have := List.all_eq_true.mp hxp.2 x.id (by simpa using hds)
        simp at this

theorem reconcile_group_other_filter (db : Db) (p p' : Int) (h h' : String)
    (hids : (db.roms.map (·.id)).Nodup) (hne : (p', h') ≠ (p, h)) :
    (reconcile_group db p h).1.roms.filter (rom_group_pred p' h')
      = db.roms.filter (rom_group_pred p' h') := by
  rw [reconcile_group_roms, List.filter_filter]
  refine List.filter_congr fun r hr => ?_
  by_cases hp : rom_group_pred p' h' r = true
  · rw [hp, Bool.true_and]
    rw [List.all_eq_true]
    intro d hd
    simp only [Bool.not_eq_true', beq_eq_false_iff_ne]
    intro hrd
    have hd' : r.id ∈ (sorted_group_ids db.roms p h).tail := by
      rw [hrd]; exact hd
    have hmem : r.id ∈ sorted_group_ids db.roms p h := List.mem_of_mem_tail hd'
    have hpred := group_pred_of_id_mem hids hr hmem
    obtain ⟨hp1, hh1⟩ := rom_group_pred_eq_true.mp hpred
    obtain ⟨hp2, hh2⟩ := rom_group_pred_eq_true.mp hp
    apply hne
    rw [Prod.mk.injEq]
    constructor
    · rw [← hp2, ← hp1]
    · rw [hh1] at hh2
      exact (Option.some_injective _ hh2.symm)
  · rw [Bool.not_eq_true] at hp
    rw [hp, Bool.false_and]

theorem length_filter_all_ne (ds : List Int) :
    ∀ (roms : List Rom), ds.Nodup →
      (∀ d ∈ ds, d ∈ roms.map (·.id)) → (roms.map (·.id)).Nodup →
      (roms.filter fun r => ds.all fun d => !(r.id == d)).length + ds.length
        = roms.length := by
  induction ds with
  | nil =>
    intro roms _ _ _
    simp
  | cons d ds ih =>
    intro roms hnd hmem hids
    rw [List.nodup_cons] at hnd
    -- peel off the rows with id = d first
    have hsplit :
        (roms.filter fun r => (d :: ds).all fun e => !(r.id == e))
          = (roms.filter fun r => !(r.id == d)).filter
              fun r => ds.all fun e => !(r.id == e) := by
      rw [List.filter_filter]
      refine List.filter_congr fun r _ => ?_
      rw [List.all_cons, Bool.and_comm]
    rw [hsplit]
    have hids1 : ((roms.filter fun r => !(r.id == d)).map (·.id)).Nodup :=
      ((roms.filter_sublist).map (·.id)).nodup hids
    have hmem1 : ∀ e ∈ ds, e ∈ (roms.filter fun r => !(r.id == d)).map (·.id) := by
      intro e he
      obtain ⟨r, hr, hre⟩ := List.mem_map.mp (hmem e (List.mem_cons_of_mem d he))
      refine List.mem_map.mpr ⟨r, ?_, hre⟩
      refine List.mem_filter.mpr ⟨hr, ?_⟩
      have : e ≠ d := fun hed => hnd.1 (hed ▸ he)
      simp [hre, this]
    have hlen1 : (roms.filter fun r => !(r.id == d)).length + 1 = roms.length := by
      -- exactly one row carries id d
      have hcount : (roms.filter fun r => r.id == d).length = 1 := by
        have h1 : List.count d (roms.map (·.id)) = 1 :=
          List.count_eq_one_of_mem hids (hmem d (List.mem_cons_self d ds))
        rw [List.count, List.countP_map, List.countP_eq_length_filter] at h1
        rw [← h1]
        congr 1
      have htot := List.length_eq_length_filter_add (l := roms)
        (fun r => r.id == d)
      rw [hcount] at htot
      omega
    have := ih (roms.filter fun r => !(r.id == d)) hnd.2 hmem1 hids1
    simp only [List.length_cons]
    omega

theorem reconcile_group_len (db : Db) (p : Int) (h : String)
    (hids : (db.roms.map (·.id)).Nodup) :
    (reconcile_group db p h).1.roms.length + (reconcile_group db p h).2
      = db.roms.length := by
  rw [reconcile_group_roms, reconcile_group_count]
  apply length_filter_all_ne
  · -- the tail of a nodup list is nodup
    have := sorted_group_ids_nodup p h hids
    rcases hsorted : sorted_group_ids db.roms p h with _ | ⟨k, ds⟩
    · simp
    · rw [hsorted] at this
      exact (List.nodup_cons.mp this).2
  · intro d hd
    obtain ⟨r, hr, hrid⟩ := mem_sorted_group_ids.mp (List.mem_of_mem_tail hd)
    exact List.mem_map.mpr ⟨r, (List.mem_filter.mp hr).1, hrid⟩
  · exact hids

theorem reconcile_group_count_le (db : Db) (p p' : Int) (h h' : String) :
    romCount (reconcile_group db p h).1.roms p' h' ≤ romCount db.roms p' h' := by
  rw [reconcile_group_roms]
  exact romCount_filter_le _ _ _ _

theorem mem_duplicate_groups {roms : List Rom} {g : Int × String}
    (hg : g ∈ duplicate_groups roms) :
    g.2 ≠ "" ∧ 1 < romCount roms g.1 g.2 := by
  obtain ⟨hmem, hcnt⟩ := List.mem_filter.mp hg
  refine ⟨?_, by simpa using hcnt⟩
  obtain ⟨r, hr, hmatch⟩ := List.mem_filterMap.mp (List.mem_dedup.mp hmem)
  rcases hh : r.hash_md5 with _ | h2
  · rw [hh] at hmatch; simp at hmatch
  · rw [hh] at hmatch
    by_cases hne : h2 = ""
    · simp [hne] at hmatch
    · simp only [ne_eq, hne, not_false_eq_true, if_true] at hmatch
      obtain ⟨-, hg2⟩ := Prod.mk.injEq .. ▸ Option.some_injective _ hmatch
      rw [← hg2]
      exact hne

theorem duplicate_groups_complete {roms : List Rom} {p : Int} {h : String}
    (hne : h ≠ "") (hcnt : 1 < romCount roms p h) :
    (p, h) ∈ duplicate_groups roms := by
  refine List.mem_filter.mpr ⟨List.mem_dedup.mpr ?_, by simpa using hcnt⟩
  have hpos : 0 < (roms.filter (rom_group_pred p h)).length := by
    unfold romCount at hcnt; omega
  obtain ⟨r, hr⟩ := List.exists_mem_of_length_pos hpos
  obtain ⟨hrr, hrp⟩ := List.mem_filter.mp hr
  obtain ⟨hp1, hh1⟩ := rom_group_pred_eq_true.mp hrp
  refine List.mem_filterMap.mpr ⟨r, hrr, ?_⟩
  rw [hh1]
  simp [hne, hp1]

theorem duplicate_groups_nodup (roms : List Rom) :
    (duplicate_groups roms).Nodup :=
  (List.nodup_dedup _).filter _

/-- The accumulator-passing outer fold of `reconcile_duplicates`, named so
the induction lemmas below can speak about it. -/
def reconcile_fold (gs : List (Int × String)) (acc : Db × Nat) : Db × Nat :=
  gs.foldl
    (fun acc g =>
      let r := reconcile_group acc.1 g.1 g.2
      (r.1, acc.2 + r.2))
    acc

theorem reconcile_duplicates_eq_fold (db : Db) :
    reconcile_duplicates db = reconcile_fold (duplicate_groups db.roms) (db, 0) :=
  rfl

theorem reconcile_fold_cons (g : Int × String) (gs : List (Int × String))
    (db : Db) (n : Nat) :
    reconcile_fold (g :: gs) (db, n)
      = reconcile_fold gs ((reconcile_group db g.1 g.2).1,
          n + (reconcile_group db g.1 g.2).2) :=
  rfl

theorem filter_and_eq_filter_filter {α : Type} (p q : α → Bool) (l : List α) :
    l.filter (fun a => p a && q a) = (l.filter p).filter q := by
  rw [List.filter_filter]
  exact List.filter_congr fun a _ => Bool.and_comm _ _

theorem sorted_group_ids_congr {roms roms' : List Rom} (p : Int) (h : String)
    (hf : roms.filter (rom_group_pred p h) = roms'.filter (rom_group_pred p h)) :
    sorted_group_ids roms p h = sorted_group_ids roms' p h := by
  unfold sorted_group_ids
  rw [hf]

theorem reconcile_fold_counts (gs : List (Int × String)) :
    ∀ (db : Db) (n : Nat), (db.roms.map (·.id)).Nodup →
      (((reconcile_fold gs (db, n)).1.roms.map (·.id)).Nodup)
      ∧ (∀ p h, romCount (reconcile_fold gs (db, n)).1.roms p h
          ≤ romCount db.roms p h)
      ∧ (∀ g ∈ gs, romCount (reconcile_fold gs (db, n)).1.roms g.1 g.2 ≤ 1)
      ∧ (reconcile_fold gs (db, n)).2 + (reconcile_fold gs (db, n)).1.roms.length
          = n + db.roms.length := by
  induction gs with
  | nil =>
    intro db n hids
    exact ⟨hids, fun p h => le_refl _, by simp, rfl⟩
  | cons g gs ih =>
    intro db n hids
    rw [reconcile_fold_cons]
    have hids1 := reconcile_group_ids_nodup g.1 g.2 hids
    obtain ⟨ih1, ih2, ih3, ih4⟩ :=
      ih (reconcile_group db g.1 g.2).1 (n + (reconcile_group db g.1 g.2).2) hids1
    refine ⟨ih1, ?_, ?_, ?_⟩
    · intro p h
      exact le_trans (ih2 p h) (reconcile_group_count_le db g.1 p g.2 h)
    · intro g' hg'
      rcases List.mem_cons.mp hg' with rfl | hg'mem
      · exact le_trans (ih2 g'.1 g'.2) (reconcile_group_own_count db g'.1 g'.2 hids)
      · exact ih3 g' hg'mem
    · have hlen := reconcile_group_len db g.1 g.2 hids
      omega

theorem reconcile_fold_filters (gs : List (Int × String)) :
    ∀ (db : Db) (n : Nat), (db.roms.map (·.id)).Nodup → gs.Nodup →
      ∀ p h,
        ((p, h) ∉ gs →
          (reconcile_fold gs (db, n)).1.roms.filter (rom_group_pred p h)
            = db.roms.filter (rom_group_pred p h))
        ∧ ((p, h) ∈ gs →
          (reconcile_fold gs (db, n)).1.roms.filter (rom_group_pred p h)
            = db.roms.filter fun r => rom_group_pred p h r &&
                ((sorted_group_ids db.roms p h).tail.all fun d => !(r.id == d))) := by
  induction gs with
  | nil =>
    intro db n _ _ p h
    exact ⟨fun _ => rfl, fun habs => absurd habs (List.not_mem_nil _)⟩
  | cons g gs ih =>
    intro db n hids hnd p h
    rw [reconcile_fold_cons]
    have hids1 := reconcile_group_ids_nodup g.1 g.2 hids
    have hnd' := List.nodup_cons.mp hnd
    constructor
    · intro hnmem
      have hneg : (p, h) ≠ g := fun habs => hnmem (habs ▸ List.mem_cons_self g gs)
      have hnmem2 : (p, h) ∉ gs := fun habs => hnmem (List.mem_cons_of_mem g habs)
      rw [(ih _ _ hids1 hnd'.2 p h).1 hnmem2]
      exact reconcile_group_other_filter db g.1 p g.2 h hids
        (by rw [← Prod.mk.eta (p := g)] at hneg; exact hneg)
    · intro hmem
      rcases List.mem_cons.mp hmem with heq | hmem2
      · -- this group is processed first; later groups leave it alone
        have hnmem2 : (p, h) ∉ gs := by
          rw [heq]; exact hnd'.1
        rw [(ih _ _ hids1 hnd'.2 p h).1 hnmem2]
        have hg1 : g.1 = p := (congrArg Prod.fst heq).symm
        have hg2 : g.2 = h := (congrArg Prod.snd heq).symm
        rw [hg1, hg2, reconcile_group_roms, List.filter_filter]
      · -- a different group is processed first; its pass preserves this one
        have hneg : (p, h) ≠ g := by
          intro habs
          rw [habs] at hmem2
          exact hnd'.1 hmem2
        have hfilter := reconcile_group_other_filter db g.1 p g.2 h hids
          (by rw [← Prod.mk.eta (p := g)] at hneg; exact hneg)
        have hsorted := sorted_group_ids_congr p h hfilter
        rw [(ih _ _ hids1 hnd'.2 p h).2 hmem2, hsorted,
          filter_and_eq_filter_filter, filter_and_eq_filter_filter, hfilter]

theorem reconcile_fold_spares (gs : List (Int × String)) :
    ∀ (db : Db) (n : Nat), (db.roms.map (·.id)).Nodup →
      (∀ g ∈ gs, g.2 ≠ "") →
      ∀ r ∈ db.roms, (r.hash_md5 = none ∨ r.hash_md5 = some "") →
        r ∈ (reconcile_fold gs (db, n)).1.roms := by
  induction gs with
  | nil =>
    intro db n _ _ r hr _
    exact hr
  | cons g gs ih =>
    intro db n hids hne r hr hhash
    rw [reconcile_fold_cons]
    have hids1 := reconcile_group_ids_nodup g.1 g.2 hids
    refine ih _ _ hids1 (fun g' hg' => hne g' (List.mem_cons_of_mem g hg')) r ?_ hhash
    rw [reconcile_group_roms]
    refine List.mem_filter.mpr ⟨hr, ?_⟩
    rw [List.all_eq_true]
    intro d hd
    simp only [Bool.not_eq_true', beq_eq_false_iff_ne]
    intro hrd
    have hd' : r.id ∈ (sorted_group_ids db.roms g.1 g.2).tail := by
      rw [hrd]; exact hd
    have hpred := group_pred_of_id_mem hids hr (List.mem_of_mem_tail hd')
    obtain ⟨-, hh⟩ := rom_group_pred_eq_true.mp hpred
    rcases hhash with hnone | hempty
    · rw [hnone] at hh; exact Option.noConfusion hh
    · rw [hempty] at hh
      exact hne g (List.mem_cons_self g gs) (Option.some_injective _ hh).symm

theorem update_or_ignore_retarget {ρ κ : Type} [DecidableEq κ]
    (romId : ρ → Int) (key : ρ → κ) (withRomId : ρ → Int → ρ)
    (hid : ∀ r k, romId (withRomId r k) = k)
    (hkey : ∀ r k, key (withRomId r k) = key r)
    (keeper dupe : Int) (hkd : keeper ≠ dupe) (rows : List ρ)
    {r : ρ} (hr : r ∈ rows) (hrid : romId r = dupe) :
    ∃ r' ∈ (update_or_ignore_rom_id romId key withRomId keeper dupe
        rows).filter fun s => !(romId s == dupe),
      romId r' = keeper ∧ key r' = key r := by
  unfold update_or_ignore_rom_id
  by_cases hc : rows.any (fun s => romId s == keeper && key s == key r) = true
  · -- the keeper already owns a row with this key: `OR IGNORE` keeps it
    obtain ⟨s, hs, hsp⟩ := List.any_eq_true.mp hc
    rw [Bool.and_eq_true, beq_iff_eq, beq_iff_eq] at hsp
    refine ⟨s, ?_, hsp.1, hsp.2⟩
    have hnotdupe : (romId s == dupe) = false := by
      rw [beq_eq_false_iff_ne, hsp.1]; exact hkd
    refine List.mem_filter.mpr ⟨?_, by rw [hnotdupe]; rfl⟩
    refine List.mem_map.mpr ⟨s, hs, ?_⟩
    simp [hnotdupe]
  · -- no conflicting keeper row: the duplicate's row is retargeted
    refine ⟨withRomId r keeper, ?_, hid r keeper, hkey r keeper⟩
    have hnotdupe : (romId (withRomId r keeper) == dupe) = false := by
      rw [beq_eq_false_iff_ne, hid]; exact hkd
    refine List.mem_filter.mpr ⟨?_, by rw [hnotdupe]; rfl⟩
    refine List.mem_map.mpr ⟨r, hr, ?_⟩
    rw [Bool.not_eq_true] at hc
    simp [hrid, hc]

/-! ### C1: the reconciliation pass -/

/-- **C1.** `reconcile_duplicates` enforces the catalog invariant: after
the pass at most one `roms` row exists per `(platform_id, non-empty
hash_md5)`; within each group exactly the lowest-id member survives
(`sorted_group_ids` is ascending, so its head is the group minimum) while
entries without a usable hash are untouched; the returned count is the
number of rows merged away; an immediate second run merges nothing,
returns zero and leaves the store unchanged; and each merge step
retargets source links, metadata, artwork, library and hasheous-cache
rows of the duplicate onto the keeper with insert-if-absent semantics
(a row of the keeper always wins a key conflict). -/
theorem reconcile_duplicates_spec (db : Db)
    (hids : (db.roms.map (·.id)).Nodup) :
    (∀ p h, h ≠ "" → romCount (reconcile_duplicates db).1.roms p h ≤ 1)
    ∧ (∀ r ∈ db.roms, ∀ h, r.hash_md5 = some h → h ≠ "" →
        (r ∈ (reconcile_duplicates db).1.roms ↔
          (sorted_group_ids db.roms r.platform_id h).head? = some r.id))
    ∧ (∀ r ∈ db.roms, (r.hash_md5 = none ∨ r.hash_md5 = some "") →
        r ∈ (reconcile_duplicates db).1.roms)
    ∧ (reconcile_duplicates db).2 + (reconcile_duplicates db).1.roms.length
        = db.roms.length
    ∧ reconcile_duplicates (reconcile_duplicates db).1
        = ((reconcile_duplicates db).1, 0)
    ∧ (∀ keeper dupe, keeper ≠ dupe → ∀ l ∈ db.source_roms, l.rom_id = dupe →
        ∃ l' ∈ (merge_dupe db keeper dupe).source_roms,
          l'.rom_id = keeper ∧ l'.source_id = l.source_id)
    ∧ (∀ keeper dupe, keeper ≠ dupe → ∀ m ∈ db.metadata, m.rom_id = dupe →
        ∃ m' ∈ (merge_dupe db keeper dupe).metadata, m'.rom_id = keeper)
    ∧ (∀ keeper dupe, keeper ≠ dupe → ∀ a ∈ db.artwork, a.rom_id = dupe →
        ∃ a' ∈ (merge_dupe db keeper dupe).artwork,
          a'.rom_id = keeper ∧ a'.art_type = a.art_type ∧ a'.url = a.url)
    ∧ (∀ keeper dupe, keeper ≠ dupe → ∀ l ∈ db.library, l.rom_id = dupe →
        ∃ l' ∈ (merge_dupe db keeper dupe).library,
          l'.rom_id = keeper ∧ l'.source_id = l.source_id)
    ∧ (∀ keeper dupe, keeper ≠ dupe → ∀ c ∈ db.hasheous_cache,
        c.rom_id = dupe →
        ∃ c' ∈ (merge_dupe db keeper dupe).hasheous_cache,
          c'.rom_id = keeper) := by
  obtain ⟨hnod', hmono, hgrps, hlen⟩ :=
    reconcile_fold_counts (duplicate_groups db.roms) db 0 hids
  rw [← reconcile_duplicates_eq_fold] at hnod' hmono hgrps hlen
  have huniq : ∀ p h, h ≠ "" →
      romCount (reconcile_duplicates db).1.roms p h ≤ 1 := by
    intro p h hne
    by_cases hdup : 1 < romCount db.roms p h
    · exact hgrps (p, h) (duplicate_groups_complete hne hdup)
    · exact le_trans (hmono p h) (by omega)
  refine ⟨huniq, ?_, ?_, ?_, ?_, ?_, ?_, ?_, ?_, ?_⟩
  · -- survivor of each group is exactly the lowest-id member
    intro r hr h hh hne
    have hgp : rom_group_pred r.platform_id h r = true :=
      rom_group_pred_eq_true.mpr ⟨rfl, hh⟩
    have hrmem : r ∈ db.roms.filter (rom_group_pred r.platform_id h) :=
      List.mem_filter.mpr ⟨hr, hgp⟩
    have hidmem : r.id ∈ sorted_group_ids db.roms r.platform_id h :=
      mem_sorted_group_ids.mpr ⟨r, hrmem, rfl⟩
    have hfilters := reconcile_fold_filters (duplicate_groups db.roms) db 0
      hids (duplicate_groups_nodup _) r.platform_id h
    by_cases hdup : (r.platform_id, h) ∈ duplicate_groups db.roms
    · have heq := hfilters.2 hdup
      rw [← reconcile_duplicates_eq_fold] at heq
      constructor
      · intro hrin
        have hrin2 : r ∈ db.roms.filter fun r' =>
            rom_group_pred r.platform_id h r' &&
              ((sorted_group_ids db.roms r.platform_id h).tail.all
                fun d => !(r'.id == d)) := by
          rw [← heq]
          exact List.mem_filter.mpr ⟨hrin, hgp⟩
        obtain ⟨-, hcond⟩ := List.mem_filter.mp hrin2
        rw [Bool.and_eq_true, List.all_eq_true] at hcond
        have hnotin : r.id ∉ (sorted_group_ids db.roms r.platform_id h).tail := by
          intro hmem2
          have := hcond.2 r.id hmem2
          simp at this
        cases hsorted : sorted_group_ids db.roms r.platform_id h with
        | nil => rw [hsorted] at hidmem; cases hidmem
        | cons k ds =>
          rw [hsorted] at hidmem hnotin
          simp only [List.tail_cons] at hnotin
          rcases List.mem_cons.mp hidmem with hk | hds
          · rw [List.head?_cons, hk]
          · exact absurd hds hnotin
      · intro hhead
        have hnd := sorted_group_ids_nodup r.platform_id h hids
        have hrsurv : r ∈ db.roms.filter fun r' =>
            rom_group_pred r.platform_id h r' &&
              ((sorted_group_ids db.roms r.platform_id h).tail.all
                fun d => !(r'.id == d)) := by
          refine List.mem_filter.mpr ⟨hr, ?_⟩
          rw [Bool.and_eq_true]
          refine ⟨hgp, List.all_eq_true.mpr ?_⟩
          intro d hd
          simp only [Bool.not_eq_true', beq_eq_false_iff_ne]
          intro hrd
          cases hsorted : sorted_group_ids db.roms r.platform_id h with
          | nil => rw [hsorted] at hd; cases hd
          | cons k ds =>
            rw [hsorted] at hhead hd hnd
            simp only [List.head?_cons, Option.some.injEq] at hhead
            simp only [List.tail_cons] at hd
            rw [List.nodup_cons] at hnd
            exact hnd.1 (by rw [hhead.trans hrd]; exact hd)
        have : r ∈ (reconcile_duplicates db).1.roms.filter
            (rom_group_pred r.platform_id h) := by
          rw [heq]
          exact hrsurv
        exact (List.mem_filter.mp this).1
    · -- singleton group: untouched, and the head is the entry itself
      have heq := hfilters.1 hdup
      rw [← reconcile_duplicates_eq_fold] at heq
      have hcnt : romCount db.roms r.platform_id h ≤ 1 := by
        by_contra hlt
        exact hdup (duplicate_groups_complete hne (by omega))
      have hpos : 0 < (db.roms.filter (rom_group_pred r.platform_id h)).length :=
        List.length_pos.mpr (List.ne_nil_of_mem hrmem)
      have hcnt1 : (db.roms.filter (rom_group_pred r.platform_id h)).length = 1 := by
        unfold romCount at hcnt; omega
      obtain ⟨a, ha⟩ := List.length_eq_one.mp hcnt1
      have hra : r = a := by
        rw [ha] at hrmem
        simpa using hrmem
      have hsorted : sorted_group_ids db.roms r.platform_id h = [r.id] := by
        unfold sorted_group_ids
        rw [ha, ← hra]
        rfl
      constructor
      · intro _
        rw [hsorted]
        rfl
      · intro _
        have : r ∈ (reconcile_duplicates db).1.roms.filter
            (rom_group_pred r.platform_id h) := by
          rw [heq]
          exact hrmem
        exact (List.mem_filter.mp this).1
  · -- entries without a usable hash are untouched
    intro r hr hhash
    rw [reconcile_duplicates_eq_fold]
    exact reconcile_fold_spares (duplicate_groups db.roms) db 0 hids
      (fun g hg => (mem_duplicate_groups hg).1) r hr hhash
  · simpa using hlen
  · -- idempotence: the second pass finds no duplicate groups
    have hgempty : duplicate_groups (reconcile_duplicates db).1.roms = [] := by
      rw [List.eq_nil_iff_forall_not_mem]
      intro g hg
      obtain ⟨hne, hcnt⟩ := mem_duplicate_groups hg
      have := huniq g.1 g.2 hne
      omega
    rw [reconcile_duplicates_eq_fold (reconcile_duplicates db).1, hgempty]
    rfl
  · intro keeper dupe hkd l hl hldupe
    exact update_or_ignore_retarget (·.rom_id) (·.source_id)
      (fun l k => { l with rom_id := k }) (fun _ _ => rfl) (fun _ _ => rfl)
      keeper dupe hkd db.source_roms hl hldupe
  · intro keeper dupe hkd m hm hmdupe
    obtain ⟨m', hm', hmid, -⟩ := update_or_ignore_retarget (·.rom_id)
      (fun _ => ()) (fun m k => { m with rom_id := k }) (fun _ _ => rfl)
      (fun _ _ => rfl) keeper dupe hkd db.metadata hm hmdupe
    exact ⟨m', hm', hmid⟩
  · intro keeper dupe hkd a ha hadupe
    obtain ⟨a', ha', haid, hakey⟩ := update_or_ignore_retarget (·.rom_id)
      (fun a => (a.art_type, a.url)) (fun a k => { a with rom_id := k })
      (fun _ _ => rfl) (fun _ _ => rfl) keeper dupe hkd db.artwork ha hadupe
    obtain ⟨hty, hurl⟩ := Prod.mk.injEq .. ▸ hakey
    exact ⟨a', ha', haid, hty, hurl⟩
  · intro keeper dupe hkd l hl hldupe
    exact update_or_ignore_retarget (·.rom_id) (·.source_id)
      (fun l k => { l with rom_id := k }) (fun _ _ => rfl) (fun _ _ => rfl)
      keeper dupe hkd db.library hl hldupe
  · intro keeper dupe hkd c hc hcdupe
    obtain ⟨c', hc', hcid, -⟩ := update_or_ignore_retarget (·.rom_id)
      (fun _ => ()) (fun c k => { c with rom_id := k }) (fun _ _ => rfl)
      (fun _ _ => rfl) keeper dupe hkd db.hasheous_cache hc hcdupe
    exact ⟨c', hc', hcid⟩

/-- A two-member duplicate group on platform 1 with hash "aa". -/
def reconcileWitnessDb : Db :=
  { roms :=
      [{ id := 1, platform_id := 1, name := "Game", file_name := "a.gb",
         file_size := some 100, regions := "[]", hash_md5 := some "aa" },
       { id := 2, platform_id := 1, name := "Game", file_name := "b.gb",
         file_size := some 100, regions := "[]", hash_md5 := some "aa" }],
    source_roms := [{ rom_id := 2, source_id := 9, source_rom_id := none,
                      source_url := none, file_name := none, hash_md5 := none }],
    metadata := [], artwork := [], library := [], hasheous_cache := [],
    next_rom_id := 3 }

/-- Witness for C1: on a concrete store with one duplicate pair the pass
leaves at most one row per group and the merge count plus the surviving
row count equals the original row count. -/
theorem reconcile_duplicates_spec_witness :
    romCount (reconcile_duplicates reconcileWitnessDb).1.roms 1 "aa" ≤ 1
    ∧ (reconcile_duplicates reconcileWitnessDb).2
        + (reconcile_duplicates reconcileWitnessDb).1.roms.length
      = reconcileWitnessDb.roms.length :=
  ⟨(reconcile_duplicates_spec reconcileWitnessDb (by decide)).1 1 "aa"
      (by decide),
   (reconcile_duplicates_spec reconcileWitnessDb (by decide)).2.2.2.1⟩

/-! ### Facts about `upsert_rom_deduped` -/

theorem coalesce_self {α : Type} (a : Option α) : coalesce a a = a := by
  cases a <;> rfl

theorem coalesce_absorb {α : Type} (a b : Option α) :
    coalesce a (coalesce a b) = coalesce a b := by
  cases a <;> rfl

theorem merge_rom_fields_id (r : Rom) (name : String) (file_size : Option Int)
    (regions : String) (hash_md5 : Option String) :
    (merge_rom_fields r name file_size regions hash_md5).id = r.id := rfl

theorem merge_rom_fields_platform_id (r : Rom) (name : String)
    (file_size : Option Int) (regions : String) (hash_md5 : Option String) :
    (merge_rom_fields r name file_size regions hash_md5).platform_id
      = r.platform_id := rfl

theorem merge_rom_fields_file_name (r : Rom) (name : String)
    (file_size : Option Int) (regions : String) (hash_md5 : Option String) :
    (merge_rom_fields r name file_size regions hash_md5).file_name
      = r.file_name := rfl

theorem merge_rom_fields_idem (r : Rom) (name : String)
    (file_size : Option Int) (regions : String) (hash_md5 : Option String) :
    merge_rom_fields (merge_rom_fields r name file_size regions hash_md5)
        name file_size regions hash_md5
      = merge_rom_fields r name file_size regions hash_md5 := by
  unfold merge_rom_fields
  by_cases hn : name = "" <;> by_cases hr : regions ≠ "[]" <;>
    simp [hn, hr, coalesce_absorb]

theorem link_source_update_rom_id (rom_id source_id : Int)
    (source_rom_id source_url file_name hash_md5 : Option String)
    (l : SourceRom) :
    (link_source_update rom_id source_id source_rom_id source_url file_name
      hash_md5 l).rom_id = l.rom_id := by
  unfold link_source_update
  split <;> rfl

theorem link_source_update_source_id (rom_id source_id : Int)
    (source_rom_id source_url file_name hash_md5 : Option String)
    (l : SourceRom) :
    (link_source_update rom_id source_id source_rom_id source_url file_name
      hash_md5 l).source_id = l.source_id := by
  unfold link_source_update
  split <;> rfl

theorem link_source_update_idem (rom_id source_id : Int)
    (source_rom_id source_url file_name hash_md5 : Option String)
    (l : SourceRom) :
    link_source_update rom_id source_id source_rom_id source_url file_name
        hash_md5 (link_source_update rom_id source_id source_rom_id
          source_url file_name hash_md5 l)
      = link_source_update rom_id source_id source_rom_id source_url
          file_name hash_md5 l := by
  unfold link_source_update
  by_cases hc : (l.rom_id == rom_id && l.source_id == source_id) = true
  · simp only [hc, if_true, if_pos]
    simp [hc, coalesce_absorb]
  · simp only [hc]
    simp [hc]

theorem link_source_idem (links : List SourceRom) (rom_id source_id : Int)
    (source_rom_id source_url file_name hash_md5 : Option String) :
    link_source (link_source links rom_id source_id source_rom_id source_url
        file_name hash_md5) rom_id source_id source_rom_id source_url
        file_name hash_md5
      = link_source links rom_id source_id source_rom_id source_url
          file_name hash_md5 := by
  unfold link_source
  by_cases hany : (links.any fun l =>
      l.rom_id == rom_id && l.source_id == source_id) = true
  · rw [if_pos hany]
    have hany2 : ((links.map (link_source_update rom_id source_id
        source_rom_id source_url file_name hash_md5)).any fun l =>
          l.rom_id == rom_id && l.source_id == source_id) = true := by
      rw [List.any_map]
      have hfun : ((fun l : SourceRom =>
            l.rom_id == rom_id && l.source_id == source_id) ∘
          link_source_update rom_id source_id source_rom_id source_url
            file_name hash_md5)
          = fun l : SourceRom =>
              l.rom_id == rom_id && l.source_id == source_id :=
        funext fun l => by
          simp only [Function.comp_apply, link_source_update_rom_id,
            link_source_update_source_id]
      rw [hfun]
      exact hany
    rw [if_pos hany2, List.map_map]
    have hcomp : (link_source_update rom_id source_id source_rom_id
          source_url file_name hash_md5 ∘
        link_source_update rom_id source_id source_rom_id source_url
          file_name hash_md5)
        = link_source_update rom_id source_id source_rom_id source_url
            file_name hash_md5 :=
      funext (link_source_update_idem rom_id source_id source_rom_id
        source_url file_name hash_md5)
    rw [hcomp]
  · rw [if_neg hany]
    rw [if_pos (by rw [List.any_append]; simp)]
    rw [List.map_append]
    congr 1
    · conv_rhs => rw [← List.map_id links]
      refine List.map_congr_left fun l hl => ?_
      have hc : (l.rom_id == rom_id && l.source_id == source_id) = false := by
        by_contra hcc
        rw [Bool.not_eq_false] at hcc
        rw [Bool.not_eq_true, ← Bool.not_eq_true, List.any_eq_true] at hany
        exact hany ⟨l, hl, hcc⟩
      unfold link_source_update
      rw [hc]
      rfl
    · unfold link_source_update
      simp [coalesce_self]

theorem upsert_rom_deduped_phase1_eq (db : Db) (platform_id : Int)
    (name file_name : String) (file_size : Option Int) (regions : String)
    (h : String) (source_id : Int) (source_rom_id source_url : Option String)
    (hne : h ≠ "") (rid : Int)
    (hfind : find_existing_rom_by_hash db.roms platform_id h = some rid) :
    upsert_rom_deduped db platform_id name file_name file_size regions
        (some h) source_id source_rom_id source_url
      = ({ db with
            source_roms := link_source db.source_roms rid source_id
              source_rom_id source_url (some file_name) (some h) }, rid) := by
  simp [upsert_rom_deduped, hne, hfind]

theorem upsert_rom_deduped_phase2_eq (db : Db) (platform_id : Int)
    (name file_name : String) (file_size : Option Int) (regions : String)
    (hash_md5 : Option String) (source_id : Int)
    (source_rom_id source_url : Option String)
    (hmiss : ∀ h, hash_md5 = some h →
      h = "" ∨ find_existing_rom_by_hash db.roms platform_id h = none)
    (rid : Int)
    (hfile : find_existing_rom_by_filename db.roms platform_id file_name
      = some rid) :
    upsert_rom_deduped db platform_id name file_name file_size regions
        hash_md5 source_id source_rom_id source_url
      = ({ db with
            roms := db.roms.map
              (upsert_merge_row rid name file_size regions hash_md5)
            source_roms := link_source db.source_roms rid source_id
              source_rom_id source_url (some file_name) hash_md5 }, rid) := by
  rcases hh : hash_md5 with _ | h
  · subst hh
    simp [upsert_rom_deduped, upsert_rom_deduped_phase2, hfile]
  · subst hh
    by_cases hne : h = ""
    · subst hne
      simp [upsert_rom_deduped, upsert_rom_deduped_phase2, hfile]
    · have hnone := (hmiss h rfl).resolve_left hne
      simp [upsert_rom_deduped, hne, hnone, upsert_rom_deduped_phase2, hfile]

theorem upsert_rom_deduped_phase3_eq (db : Db) (platform_id : Int)
    (name file_name : String) (file_size : Option Int) (regions : String)
    (hash_md5 : Option String) (source_id : Int)
    (source_rom_id source_url : Option String)
    (hmiss : ∀ h, hash_md5 = some h →
      h = "" ∨ find_existing_rom_by_hash db.roms platform_id h = none)
    (hfile : find_existing_rom_by_filename db.roms platform_id file_name
      = none) :
    upsert_rom_deduped db platform_id name file_name file_size regions
        hash_md5 source_id source_rom_id source_url
      = ({ db with
            roms := db.roms ++
              [{ id := db.next_rom_id, platform_id := platform_id,
                 name := name, file_name := file_name,
                 file_size := file_size, regions := regions,
                 hash_md5 := hash_md5 }]
            source_roms := link_source db.source_roms db.next_rom_id
              source_id source_rom_id source_url (some file_name) hash_md5
            next_rom_id := db.next_rom_id + 1 }, db.next_rom_id) := by
  rcases hh : hash_md5 with _ | h
  · subst hh
    simp [upsert_rom_deduped, upsert_rom_deduped_phase2,
      upsert_rom_deduped_phase3, hfile]
  · subst hh
    by_cases hne : h = ""
    · subst hne
      simp [upsert_rom_deduped, upsert_rom_deduped_phase2,
        upsert_rom_deduped_phase3, hfile]
    · have hnone := (hmiss h rfl).resolve_left hne
      simp [upsert_rom_deduped, hne, hnone, upsert_rom_deduped_phase2,
        upsert_rom_deduped_phase3, hfile]

/-! ### C5: strict three-step order of `upsert_rom_deduped` -/

/-- **C5.** `upsert_rom_deduped` follows the strict three-step order: a
supplied non-empty hash with a `(platform, hash)` match only links the
source and returns that entry's id, leaving every `roms` row (and the rest
of the store) untouched; otherwise a `(platform, filename)` match
merge-updates exactly that entry and links the source; otherwise a new
entry is inserted (under the fresh autoincrement id) and the source
linked. -/
theorem upsert_rom_deduped_strict_order (db : Db) (platform_id : Int)
    (name file_name : String) (file_size : Option Int) (regions : String)
    (hash_md5 : Option String) (source_id : Int)
    (source_rom_id source_url : Option String) :
    (∀ h rid, hash_md5 = some h → h ≠ "" →
      find_existing_rom_by_hash db.roms platform_id h = some rid →
      upsert_rom_deduped db platform_id name file_name file_size regions
          hash_md5 source_id source_rom_id source_url
        = ({ db with
              source_roms := link_source db.source_roms rid source_id
                source_rom_id source_url (some file_name) hash_md5 }, rid))
    ∧ ((∀ h, hash_md5 = some h →
          h = "" ∨ find_existing_rom_by_hash db.roms platform_id h = none) →
        ∀ rid,
        find_existing_rom_by_filename db.roms platform_id file_name = some rid →
        upsert_rom_deduped db platform_id name file_name file_size regions
            hash_md5 source_id source_rom_id source_url
          = ({ db with
                roms := db.roms.map
                  (upsert_merge_row rid name file_size regions hash_md5)
                source_roms := link_source db.source_roms rid source_id
                  source_rom_id source_url (some file_name) hash_md5 }, rid))
    ∧ ((∀ h, hash_md5 = some h →
          h = "" ∨ find_existing_rom_by_hash db.roms platform_id h = none) →
        find_existing_rom_by_filename db.roms platform_id file_name = none →
        upsert_rom_deduped db platform_id name file_name file_size regions
            hash_md5 source_id source_rom_id source_url
          = ({ db with
                roms := db.roms ++
                  [{ id := db.next_rom_id, platform_id := platform_id,
                     name := name, file_name := file_name,
                     file_size := file_size, regions := regions,
                     hash_md5 := hash_md5 }]
                source_roms := link_source db.source_roms db.next_rom_id
                  source_id source_rom_id source_url (some file_name) hash_md5
                next_rom_id := db.next_rom_id + 1 }, db.next_rom_id)) := by
  refine ⟨?_, ?_, ?_⟩
  · rintro h rid rfl hne hfind
    exact upsert_rom_deduped_phase1_eq db platform_id name file_name
      file_size regions h source_id source_rom_id source_url hne rid hfind
  · intro hmiss rid hfile
    exact upsert_rom_deduped_phase2_eq db platform_id name file_name
      file_size regions hash_md5 source_id source_rom_id source_url hmiss
      rid hfile
  · intro hmiss hfile
    exact upsert_rom_deduped_phase3_eq db platform_id name file_name
      file_size regions hash_md5 source_id source_rom_id source_url hmiss
      hfile

/-- A one-entry store for the C5 witness: platform 1 already has an entry
with hash `"aa"` under a different filename. -/
def upsertWitnessDb : Db :=
  { roms :=
      [{ id := 1, platform_id := 1, name := "Game", file_name := "a.gb",
         file_size := some 100, regions := "[]", hash_md5 := some "aa" }],
    source_roms := [], metadata := [], artwork := [], library := [],
    hasheous_cache := [], next_rom_id := 2 }

/-- Witness for C5: a hash-matching upsert under a different filename
takes phase 1 — it returns the matched id and only links the source. -/
theorem upsert_rom_deduped_strict_order_witness :
    upsert_rom_deduped upsertWitnessDb 1 "Game!" "b.gb" (some 200) "[]"
        (some "aa") 9 none none
      = ({ upsertWitnessDb with
            source_roms := link_source upsertWitnessDb.source_roms 1 9
              none none (some "b.gb") (some "aa") }, 1) :=
  (upsert_rom_deduped_strict_order upsertWitnessDb 1 "Game!" "b.gb"
    (some 200) "[]" (some "aa") 9 none none).1 "aa" 1 rfl (by decide) (by rfl)

/-! ### Stability of the lookups under the filename-branch update -/

theorem merge_map_fn_id (rid : Int) (name : String) (file_size : Option Int)
    (regions : String) (hash_md5 : Option String) (r : Rom) :
    (upsert_merge_row rid name file_size regions hash_md5 r).id = r.id := by
  unfold upsert_merge_row
  by_cases hc : (r.id == rid) = true <;> simp [hc, merge_rom_fields]

theorem merge_map_fn_platform_id (rid : Int) (name : String)
    (file_size : Option Int) (regions : String) (hash_md5 : Option String)
    (r : Rom) :
    (upsert_merge_row rid name file_size regions hash_md5 r).platform_id
      = r.platform_id := by
  unfold upsert_merge_row
  by_cases hc : (r.id == rid) = true <;> simp [hc, merge_rom_fields]

theorem merge_map_fn_file_name (rid : Int) (name : String)
    (file_size : Option Int) (regions : String) (hash_md5 : Option String)
    (r : Rom) :
    (upsert_merge_row rid name file_size regions hash_md5 r).file_name
      = r.file_name := by
  unfold upsert_merge_row
  by_cases hc : (r.id == rid) = true <;> simp [hc, merge_rom_fields]

theorem merge_map_fn_idem (rid : Int) (name : String) (file_size : Option Int)
    (regions : String) (hash_md5 : Option String) (r : Rom) :
    upsert_merge_row rid name file_size regions hash_md5
        (upsert_merge_row rid name file_size regions hash_md5 r)
      = upsert_merge_row rid name file_size regions hash_md5 r := by
  unfold upsert_merge_row
  by_cases hc : (r.id == rid) = true
  · simp only [hc, if_true, if_pos]
    rw [if_pos (by rw [merge_rom_fields_id]; exact hc)]
    exact merge_rom_fields_idem r name file_size regions hash_md5
  · simp only [hc]
    simp [hc]

theorem merge_map_comp (rid : Int) (name : String) (file_size : Option Int)
    (regions : String) (hash_md5 : Option String) :
    upsert_merge_row rid name file_size regions hash_md5 ∘
        upsert_merge_row rid name file_size regions hash_md5
      = upsert_merge_row rid name file_size regions hash_md5 :=
  funext fun r => merge_map_fn_idem rid name file_size regions hash_md5 r

theorem find_filename_after_merge (roms : List Rom) (platform_id : Int)
    (file_name : String) (rid : Int) (name : String) (file_size : Option Int)
    (regions : String) (hash_md5 : Option String) :
    find_existing_rom_by_filename
        (roms.map (upsert_merge_row rid name file_size regions hash_md5))
        platform_id file_name
      = find_existing_rom_by_filename roms platform_id file_name := by
  unfold find_existing_rom_by_filename
  rw [List.find?_map]
  have hq : ((fun r : Rom =>
        r.platform_id == platform_id && r.file_name == file_name) ∘
      upsert_merge_row rid name file_size regions hash_md5)
      = fun r : Rom =>
          r.platform_id == platform_id && r.file_name == file_name :=
    funext fun r => by
      simp only [Function.comp_apply, merge_map_fn_platform_id,
        merge_map_fn_file_name]
  rw [hq, Option.map_map]
  rcases hfind : roms.find? (fun r =>
      r.platform_id == platform_id && r.file_name == file_name) with _ | r0
  · rw [hfind]
    rfl
  · rw [hfind]
    rw [Option.map_some', Option.map_some']
    simp only [Function.comp_apply]
    rw [merge_map_fn_id]

theorem find_hash_after_merge (roms : List Rom) (platform_id : Int)
    (file_name : String) (h : String) (rid : Int) (name : String)
    (file_size : Option Int) (regions : String)
    (hnone : find_existing_rom_by_hash roms platform_id h = none)
    (hfile : find_existing_rom_by_filename roms platform_id file_name
      = some rid) :
    find_existing_rom_by_hash
        (roms.map (upsert_merge_row rid name file_size regions (some h)))
        platform_id h
      = some rid := by
  unfold find_existing_rom_by_hash at hnone ⊢
  unfold find_existing_rom_by_filename at hfile
  rw [List.find?_map, Option.map_map]
  obtain ⟨rf, hrf, hrfid⟩ := Option.map_eq_some'.mp hfile
  have hrfq := List.find?_some hrf
  rw [Bool.and_eq_true, beq_iff_eq, beq_iff_eq] at hrfq
  have hrfmem := List.mem_of_find?_eq_some hrf
  have hfind_none : roms.find? (fun r =>
      r.platform_id == platform_id && r.hash_md5 == some h) = none :=
    Option.map_eq_none'.mp hnone
  have hnone' := List.find?_eq_none.mp hfind_none
  have hsome : (roms.find? ((fun r : Rom =>
      r.platform_id == platform_id && r.hash_md5 == some h) ∘
        upsert_merge_row rid name file_size regions (some h))).isSome
      = true := by
    rw [List.find?_isSome]
    refine ⟨rf, hrfmem, ?_⟩
    simp only [Function.comp_apply]
    unfold upsert_merge_row
    rw [if_pos (by rw [hrfid]; simp), Bool.and_eq_true]
    constructor
    · rw [beq_iff_eq, merge_rom_fields_platform_id]
      exact hrfq.1
    · rw [beq_iff_eq]
      simp [merge_rom_fields, coalesce]
  obtain ⟨r0, hr0⟩ := Option.isSome_iff_exists.mp hsome
  rw [hr0]
  have hq0 := List.find?_some hr0
  have hmem0 := List.mem_of_find?_eq_some hr0
  simp only [Function.comp_apply] at hq0
  by_cases hid : (r0.id == rid) = true
  · rw [beq_iff_eq] at hid
    rw [Option.map_some']
    simp only [Function.comp_apply]
    rw [merge_map_fn_id, hid]
  · unfold upsert_merge_row at hq0
    simp only [if_neg hid] at hq0
    exact absurd hq0 (hnone' r0 hmem0)

theorem upsert_second_run_noop (db : Db) (platform_id : Int)
    (name file_name : String) (file_size : Option Int) (regions : String)
    (hash_md5 : Option String) (source_id : Int)
    (source_rom_id source_url : Option String)
    (hmiss : ∀ h, hash_md5 = some h →
      h = "" ∨ find_existing_rom_by_hash db.roms platform_id h = none)
    (rid : Int)
    (hfile : find_existing_rom_by_filename db.roms platform_id file_name
      = some rid) :
    upsert_rom_deduped
        { db with
          roms := db.roms.map
            (upsert_merge_row rid name file_size regions hash_md5)
          source_roms := link_source db.source_roms rid source_id
            source_rom_id source_url (some file_name) hash_md5 }
        platform_id name file_name file_size regions hash_md5 source_id
        source_rom_id source_url
      = ({ db with
            roms := db.roms.map
              (upsert_merge_row rid name file_size regions hash_md5)
            source_roms := link_source db.source_roms rid source_id
              source_rom_id source_url (some file_name) hash_md5 }, rid) := by
  rcases hh : hash_md5 with _ | h
  · subst hh
    have h2 := upsert_rom_deduped_phase2_eq
      { db with
        roms := db.roms.map (upsert_merge_row rid name file_size regions none)
        source_roms := link_source db.source_roms rid source_id
          source_rom_id source_url (some file_name) none }
      platform_id name file_name file_size regions none source_id
      source_rom_id source_url (fun h hc => Option.noConfusion hc) rid
      (by
        show find_existing_rom_by_filename
          (db.roms.map (upsert_merge_row rid name file_size regions none))
          platform_id file_name = some rid
        rw [find_filename_after_merge]
        exact hfile)
    rw [h2]
    refine congrArg (fun x => (x, rid)) ?_
    show ({ db with
        roms := (db.roms.map
          (upsert_merge_row rid name file_size regions none)).map
            (upsert_merge_row rid name file_size regions none)
        source_roms := link_source (link_source db.source_roms rid source_id
          source_rom_id source_url (some file_name) none) rid source_id
          source_rom_id source_url (some file_name) none } : Db)
      = { db with
          roms := db.roms.map (upsert_merge_row rid name file_size regions none)
          source_roms := link_source db.source_roms rid source_id
            source_rom_id source_url (some file_name) none }
    rw [List.map_map, merge_map_comp, link_source_idem]
  · subst hh
    by_cases hne : h = ""
    · subst hne
      have h2 := upsert_rom_deduped_phase2_eq
        { db with
          roms := db.roms.map
            (upsert_merge_row rid name file_size regions (some ""))
          source_roms := link_source db.source_roms rid source_id
            source_rom_id source_url (some file_name) (some "") }
        platform_id name file_name file_size regions (some "") source_id
        source_rom_id source_url
        (fun h' hc => Or.inl (Option.some_injective _ hc).symm) rid
        (by
          show find_existing_rom_by_filename
            (db.roms.map (upsert_merge_row rid name file_size regions
              (some ""))) platform_id file_name = some rid
          rw [find_filename_after_merge]
          exact hfile)
      rw [h2]
      refine congrArg (fun x => (x, rid)) ?_
      show ({ db with
          roms := (db.roms.map
            (upsert_merge_row rid name file_size regions (some ""))).map
              (upsert_merge_row rid name file_size regions (some ""))
          source_roms := link_source (link_source db.source_roms rid
            source_id source_rom_id source_url (some file_name) (some ""))
            rid source_id source_rom_id source_url (some file_name)
            (some "") } : Db)
        = { db with
            roms := db.roms.map
              (upsert_merge_row rid name file_size regions (some ""))
            source_roms := link_source db.source_roms rid source_id
              source_rom_id source_url (some file_name) (some "") }
      rw [List.map_map, merge_map_comp, link_source_idem]
    · have hnone := (hmiss h rfl).resolve_left hne
      have hfind1 := find_hash_after_merge db.roms platform_id file_name h
        rid name file_size regions hnone hfile
      have h1 := upsert_rom_deduped_phase1_eq
        { db with
          roms := db.roms.map
            (upsert_merge_row rid name file_size regions (some h))
          source_roms := link_source db.source_roms rid source_id
            source_rom_id source_url (some file_name) (some h) }
        platform_id name file_name file_size regions h source_id
        source_rom_id source_url hne rid
        (by
          show find_existing_rom_by_hash
            (db.roms.map (upsert_merge_row rid name file_size regions
              (some h))) platform_id h = some rid
          exact hfind1)
      rw [h1]
      refine congrArg (fun x => (x, rid)) ?_
      show ({ db with
          roms := db.roms.map
            (upsert_merge_row rid name file_size regions (some h))
          source_roms := link_source (link_source db.source_roms rid
            source_id source_rom_id source_url (some file_name) (some h))
            rid source_id source_rom_id source_url (some file_name)
            (some h) } : Db)
        = { db with
            roms := db.roms.map
              (upsert_merge_row rid name file_size regions (some h))
            source_roms := link_source db.source_roms rid source_id
              source_rom_id source_url (some file_name) (some h) }
      rw [link_source_idem]

/-! ### C2: the filename-branch field-merge policy -/

/-- A one-entry store whose entry has the non-empty name `"A"`. -/
def c2Db : Db :=
  { roms :=
      [{ id := 1, platform_id := 1, name := "A", file_name := "f.bin",
         file_size := none, regions := "[]", hash_md5 := none }],
    source_roms := [], metadata := [], artwork := [], library := [],
    hasheous_cache := [], next_rom_id := 2 }

/-- Counterexample to C2 as stated: in the filename-match branch the
stored name `"A"` is non-empty, yet an upsert carrying the new non-empty
name `"B"` replaces it — the merge is not "fill only if the old value is
null/empty". -/
theorem upsert_filename_merge_not_fill_empty_only :
    c2Db.roms.map (·.name) = ["A"] ∧ ("A" : String) ≠ ""
    ∧ (upsert_rom_deduped c2Db 1 "B" "f.bin" none "[]" none 9
        none none).1.roms.map (·.name) = ["B"] := by
  refine ⟨rfl, by decide, ?_⟩
  rfl

/-- **C2 (amended).** In the filename-match branch of
`upsert_rom_deduped` each field follows "the new value replaces the old
whenever the new value is non-null/non-empty, regardless of the old
value" (`COALESCE(NULLIF(new,''), old)` and friends put the new value
first); an upsert whose optional fields are all null/empty changes no
field, so an upsert carrying a strict subset of previously-known fields
never erases previously-stored values, and re-running the same upsert is
a no-op. -/
theorem upsert_filename_merge_law (db : Db) (platform_id : Int)
    (name file_name : String) (file_size : Option Int) (regions : String)
    (hash_md5 : Option String) (source_id : Int)
    (source_rom_id source_url : Option String)
    (hmiss : ∀ h, hash_md5 = some h →
      h = "" ∨ find_existing_rom_by_hash db.roms platform_id h = none)
    (rid : Int)
    (hfile : find_existing_rom_by_filename db.roms platform_id file_name
      = some rid) :
    (∀ r : Rom, (merge_rom_fields r name file_size regions hash_md5).name
        = if name = "" then r.name else name)
    ∧ (∀ r : Rom,
        (merge_rom_fields r name file_size regions hash_md5).file_size
          = coalesce file_size r.file_size)
    ∧ (∀ r : Rom,
        (merge_rom_fields r name file_size regions hash_md5).regions
          = if regions ≠ "[]" then regions else r.regions)
    ∧ (∀ r : Rom,
        (merge_rom_fields r name file_size regions hash_md5).hash_md5
          = coalesce hash_md5 r.hash_md5)
    ∧ (∀ r : Rom, merge_rom_fields r "" none "[]" none = r)
    ∧ upsert_rom_deduped
        (upsert_rom_deduped db platform_id name file_name file_size regions
          hash_md5 source_id source_rom_id source_url).1
        platform_id name file_name file_size regions hash_md5 source_id
        source_rom_id source_url
      = upsert_rom_deduped db platform_id name file_name file_size regions
          hash_md5 source_id source_rom_id source_url := by
  refine ⟨fun r => rfl, fun r => rfl, fun r => rfl, fun r => rfl,
    fun r => ?_, ?_⟩
  · simp [merge_rom_fields]
  · rw [upsert_rom_deduped_phase2_eq db platform_id name file_name file_size
      regions hash_md5 source_id source_rom_id source_url hmiss rid hfile]
    exact upsert_second_run_noop db platform_id name file_name file_size
      regions hash_md5 source_id source_rom_id source_url hmiss rid hfile

/-- Witness for the amended C2: on the concrete store, re-running the
very same upsert returns the same state and id. -/
theorem upsert_filename_merge_law_witness :
    upsert_rom_deduped
        (upsert_rom_deduped c2Db 1 "B" "f.bin" none "[]" none 9
          none none).1 1 "B" "f.bin" none "[]" none 9 none none
      = upsert_rom_deduped c2Db 1 "B" "f.bin" none "[]" none 9 none none :=
  (upsert_filename_merge_law c2Db 1 "B" "f.bin" none "[]" none 9 none none
    (fun h hc => Option.noConfusion hc) 1 (by rfl)).2.2.2.2.2

/-! ## Metadata merge rules of the enrichment pipeline
(`src-tauri/src/metadata/mod.rs`)

Each external source writes the `metadata` table through an
`INSERT ... ON CONFLICT(rom_id) DO UPDATE` whose `SET` clause fixes the
merge rule per column.  The functions below embed those upserts for the
row of one catalog entry (`none` = no row yet); the bound values
(`game.description()` and so on) are taken as inputs.  On a fresh insert,
columns absent from the SQL column list keep their schema defaults
(`NULL`, and `'[]'` for the list columns — the migrations are not under
`src/`). -/

/-- The IGDB (game-database) metadata upsert of `apply_igdb_data`
(`metadata/mod.rs` lines 930-957): every scalar column coalesces with the
`excluded` (new) value first, and the list columns are replaced whenever
the new list is non-empty. -/
def apply_igdb_metadata (old : Option MetadataRow) (rom_id : Int)
    (description developer publisher : Option String)
    (genres themes : String) (rating : Option Rat)
    (release_date : Option String) (igdb_id : Int) (now : String) :
    MetadataRow :=
  match old with
  | none =>
    { rom_id := rom_id, description := description, developer := developer,
      publisher := publisher, genres := genres, themes := themes,
      rating := rating, release_date := release_date,
      igdb_id := some igdb_id, metadata_fetched_at := some now }
  | some m =>
    { m with
      description := coalesce description m.description
      developer := coalesce developer m.developer
      publisher := coalesce publisher m.publisher
      genres := if genres ≠ "[]" then genres else m.genres
      themes := if themes ≠ "[]" then themes else m.themes
      rating := coalesce rating m.rating
      release_date := coalesce release_date m.release_date
      igdb_id := coalesce (some igdb_id) m.igdb_id
      metadata_fetched_at := some now }

/-- The LaunchBox (community-database) metadata upsert of `enrich_roms`
(`metadata/mod.rs` lines 342-366): description, publisher and release
date coalesce with the existing (`metadata`) value first; developer and
rating with the `excluded` value first; genres are replaced only when
currently empty (the SQL also tests `metadata.genres IS NULL`, vacuous
since the column is `NOT NULL`). -/
def apply_launchbox_metadata (old : Option MetadataRow) (rom_id : Int)
    (overview developer publisher : Option String) (genres : String)
    (release_date : Option String) (community_rating : Option Rat)
    (now : String) : MetadataRow :=
  match old with
  | none =>
    { rom_id := rom_id, description := overview, developer := developer,
      publisher := publisher, genres := genres, themes := "[]",
      rating := community_rating, release_date := release_date,
      igdb_id := none, metadata_fetched_at := some now }
  | some m =>
    { m with
      description := coalesce m.description overview
      developer := coalesce developer m.developer
      publisher := coalesce m.publisher publisher
      genres := if m.genres = "[]" then genres else m.genres
      release_date := coalesce m.release_date release_date
      rating := coalesce community_rating m.rating
      metadata_fetched_at := some now }

/-! ### C6: coalesce-only versus authoritative-override fields -/

/-- A metadata row whose publisher `"Acme"` was stored by an earlier
source. -/
def c6MetadataRow : MetadataRow :=
  { rom_id := 5, description := none, developer := none,
    publisher := some "Acme", genres := "[]", themes := "[]",
    rating := none, release_date := none, igdb_id := none,
    metadata_fetched_at := none }

/-- Counterexample to C6 as stated: the stored publisher `"Acme"` IS
overwritten by a later IGDB contribution `"Acme Corp"` — the IGDB upsert
uses `COALESCE(excluded.publisher, metadata.publisher)`, so publisher is
not a coalesce-only (first-writer-wins) field. -/
theorem apply_igdb_overrides_stored_publisher :
    c6MetadataRow.publisher = some "Acme"
    ∧ (apply_igdb_metadata (some c6MetadataRow) 5 none none
        (some "Acme Corp") "[]" "[]" none none 42 "t1").publisher
      = some "Acme Corp" :=
  ⟨rfl, rfl⟩

/-- **C6 (amended).** The game-database (IGDB) metadata step is
authoritative for every field it contributes: a non-null IGDB value for
description, developer, publisher, rating or release date — and a
non-empty genre/theme list — replaces whatever any earlier source stored
(publisher is not a coalesce-only field).  The community-database
(LaunchBox) step is coalesce-only for description, publisher and release
date and fills genres only when they are empty; consequently a
game-database contribution for description, genres, or rating does
overwrite a value that was contributed only by the community database. -/
theorem igdb_metadata_merge_law (m : MetadataRow) (rom_id : Int)
    (description developer publisher : Option String)
    (genres themes : String) (rating : Option Rat)
    (release_date : Option String) (igdb_id : Int) (now now0 : String)
    (overview lb_developer lb_publisher : Option String) (lb_genres : String)
    (lb_release : Option String) (lb_rating : Option Rat) :
    ((apply_igdb_metadata (some m) rom_id description developer publisher
        genres themes rating release_date igdb_id now).description
      = coalesce description m.description)
    ∧ ((apply_igdb_metadata (some m) rom_id description developer publisher
        genres themes rating release_date igdb_id now).developer
      = coalesce developer m.developer)
    ∧ ((apply_igdb_metadata (some m) rom_id description developer publisher
        genres themes rating release_date igdb_id now).publisher
      = coalesce publisher m.publisher)
    ∧ ((apply_igdb_metadata (some m) rom_id description developer publisher
        genres themes rating release_date igdb_id now).genres
      = if genres ≠ "[]" then genres else m.genres)
    ∧ ((apply_igdb_metadata (some m) rom_id description developer publisher
        genres themes rating release_date igdb_id now).rating
      = coalesce rating m.rating)
    ∧ ((apply_igdb_metadata (some m) rom_id description developer publisher
        genres themes rating release_date igdb_id now).release_date
      = coalesce release_date m.release_date)
    ∧ ((apply_launchbox_metadata (some m) rom_id overview lb_developer
        lb_publisher lb_genres lb_release lb_rating now0).description
      = coalesce m.description overview)
    ∧ ((apply_launchbox_metadata (some m) rom_id overview lb_developer
        lb_publisher lb_genres lb_release lb_rating now0).publisher
      = coalesce m.publisher lb_publisher)
    ∧ ((apply_launchbox_metadata (some m) rom_id overview lb_developer
        lb_publisher lb_genres lb_release lb_rating now0).release_date
      = coalesce m.release_date lb_release)
    ∧ ((apply_launchbox_metadata (some m) rom_id overview lb_developer
        lb_publisher lb_genres lb_release lb_rating now0).genres
      = if m.genres = "[]" then lb_genres else m.genres)
    ∧ (∀ (d1 d2 g1 g2 : String) (r1 r2 : Rat), g2 ≠ "[]" →
        ((apply_igdb_metadata (some (apply_launchbox_metadata none rom_id
            (some d1) lb_developer lb_publisher g1 lb_release (some r1)
            now0)) rom_id (some d2) developer publisher g2 themes (some r2)
            release_date igdb_id now).description = some d2)
        ∧ ((apply_igdb_metadata (some (apply_launchbox_metadata none rom_id
            (some d1) lb_developer lb_publisher g1 lb_release (some r1)
            now0)) rom_id (some d2) developer publisher g2 themes (some r2)
            release_date igdb_id now).genres = g2)
        ∧ ((apply_igdb_metadata (some (apply_launchbox_metadata none rom_id
            (some d1) lb_developer lb_publisher g1 lb_release (some r1)
            now0)) rom_id (some d2) developer publisher g2 themes (some r2)
            release_date igdb_id now).rating = some r2)) := by
  refine ⟨rfl, rfl, rfl, rfl, rfl, rfl, rfl, rfl, rfl, rfl,
    fun d1 d2 g1 g2 r1 r2 hg => ⟨rfl, ?_, rfl⟩⟩
  simp [apply_igdb_metadata, apply_launchbox_metadata, hg]

/-- Witness for the amended C6: a concrete community-then-game-database
sequence where IGDB overrides the community description, genres and
rating. -/
theorem igdb_metadata_merge_law_witness :
    (apply_igdb_metadata (some (apply_launchbox_metadata none 5
        (some "lb desc") none none "[\"Action\"]" none (some 3) "t0"))
        5 (some "igdb desc") none none "[\"RPG\"]" "[]" (some 9) none 42
        "t1").genres = "[\"RPG\"]" :=
  ((igdb_metadata_merge_law (apply_launchbox_metadata none 5
      (some "lb desc") none none "[\"Action\"]" none (some 3) "t0") 5
      (some "igdb desc") none none "[\"RPG\"]" "[]" (some 9) none 42 "t1"
      "t0" (some "lb desc") none none "[\"Action\"]" none
      (some 3)).2.2.2.2.2.2.2.2.2.2 "lb desc" "igdb desc" "[\"Action\"]"
      "[\"RPG\"]" 3 9 (by decide)).2.1

/-! ## Per-source lookup caching in `enrich_roms`
(`src-tauri/src/metadata/mod.rs` and `metadata/hasheous.rs`,
`metadata/screenscraper.rs`)

The batch pipeline consults each source's cache before querying.  The
step functions below embed the cache-consultation logic of one entry for
the Hasheous (reference-hash) lookup of step 2 (`mod.rs` lines 246-262)
and the ScreenScraper lookup of step 5 (`mod.rs` lines 388-424); the
network call itself is an input (`api`). -/

/-- A parsed Hasheous lookup result (`metadata/hasheous.rs`,
`HasheousResult`). -/
structure HasheousResult where
  hasheous_id : Option Int
  name : String
  publisher : Option String
  year : Option String
  description : Option String
  genres : List String
  igdb_game_id : Option String
  igdb_platform_id : Option String
  thegamesdb_game_id : Option String
  retroachievements_game_id : Option String
  retroachievements_platform_id : Option String
  wikipedia_url : Option String
  raw_response : String
  deriving Repr, DecidableEq

/-- One Hasheous step of `enrich_roms` (`mod.rs` lines 246-262) for one
entry.  Inputs: the cached result (`hasheous::get_cached`), the entry's
MD5, and the API response (`hasheous::lookup_by_md5`, `none` = no match
or network error).  Output: the result handed to later steps, the cache
row written (`hasheous::save_to_cache` argument, `none` = nothing
written), and whether the API was queried. -/
def hasheous_step (cached : Option HasheousResult) (md5 : Option String)
    (api : Option HasheousResult) :
    Option HasheousResult × Option HasheousResult × Bool :=
  match cached with
  | some c => (some c, none, false)
  | none =>
    match md5 with
    | some _ =>
      match api with
      | some result => (some result, some result, true)
      | none => (none, none, true)
    | none => (none, none, false)

/-- A media item from a ScreenScraper response
(`metadata/screenscraper.rs`, `SsMedia`). -/
structure SsMedia where
  media_type : String
  url : String
  deriving Repr, DecidableEq

/-- Parsed ScreenScraper game data (`metadata/screenscraper.rs`,
`SsGameData`). -/
structure SsGameData where
  game_id : Option Int
  name : Option String
  synopsis : Option String
  developer : Option String
  publisher : Option String
  genre : Option String
  release_date : Option String
  rating : Option Rat
  media : List SsMedia
  deriving Repr, DecidableEq

/-- One ScreenScraper step of `enrich_roms` (`mod.rs` lines 387-424) for
one entry.  `cached` is `screenscraper::is_cached` (any row present,
including the empty miss marker); `api` is the `lookup_game` outcome.
Output: the `screenscraper_cache` row written (its
`screenscraper_game_id`; `none` = no row written) and whether the API
was queried.  `Ok(None)` — a completed lookup with no match — writes a
present-but-empty row (`save_to_cache(pool, rom.id, None, "")`). -/
def screenscraper_step (cached : Bool)
    (api : Except String (Option SsGameData)) : Option (Option Int) × Bool :=
  if cached then (none, false)
  else
    match api with
    | .ok (some ss_data) => (some ss_data.game_id, true)
    | .ok none => (some none, true)
    | .error _ => (none, true)

/-! ### C9: miss caching -/

/-- Counterexample to C9 as stated: a Hasheous lookup that completes with
no match writes no cache row at all, so a subsequent non-forced run
(whose cache is still empty) queries the source again — the
present-but-empty miss marker exists for ScreenScraper but not for the
reference-hash (Hasheous) lookup of step 2. -/
theorem hasheous_miss_leaves_no_cache_marker :
    (hasheous_step none (some "0123abcd") none).2.1 = none
    ∧ (hasheous_step none (some "0123abcd") none).2.2 = true :=
  ⟨rfl, rfl⟩

/-- **C9 (amended).** A completed ScreenScraper lookup with no match
writes a present-but-empty cache row, and any present row — the empty
miss marker included — makes a subsequent non-forced run skip the query;
a Hasheous lookup with no match, however, writes no cache row, so a
subsequent run queries Hasheous again (only a cached hit suppresses the
re-query). -/
theorem enrichment_miss_caching_law :
    (∀ md5hash : String,
      screenscraper_step false (.ok none) = (some none, true)
      ∧ hasheous_step none (some md5hash) none = (none, none, true))
    ∧ (∀ api : Except String (Option SsGameData),
      screenscraper_step ((some (none : Option Int)).isSome) api
        = (none, false))
    ∧ (∀ (c : HasheousResult) (md5 : Option String)
        (api : Option HasheousResult),
      hasheous_step (some c) md5 api = (some c, none, false)) := by
  exact ⟨fun _ => ⟨rfl, rfl⟩, fun api => rfl, fun c md5 api => rfl⟩

/-! ## Hash engine (`src-tauri/src/hash.rs`)

`hash_reader` streams a byte source through CRC32, MD5 and SHA1 in one
pass; since all three digests are stream homomorphisms, reading in 8192
byte buffers is equivalent to digesting the whole byte list, which is how
the model presents it.  The digest algorithms themselves live in the
`crc32fast`, `md5` and `sha1` crates (external collaborators); they are
embedded here as the standard CRC-32/ISO-HDLC, MD5 and SHA-1 functions
those crates implement.  32-bit words are `Nat`s kept below `2 ^ 32`. -/

/-- 32-bit addition. -/
def add32 (a b : Nat) : Nat := (a + b) % 2 ^ 32

/-- 32-bit left rotation (for `x < 2 ^ 32`, `0 < n < 32`). -/
def rotl32 (x n : Nat) : Nat := ((x <<< n) ||| (x >>> (32 - n))) % 2 ^ 32

/-- 32-bit complement. -/
def not32 (x : Nat) : Nat := x ^^^ 0xFFFFFFFF

/-- One bit step of the reflected CRC-32 (polynomial `0xEDB88320`). -/
def crc32_step (c : Nat) : Nat :=
  if c % 2 = 1 then (c / 2) ^^^ 0xEDB88320 else c / 2

/-- Absorb one byte into a CRC-32 state (eight bit steps). -/
def crc32_update_byte (c b : Nat) : Nat :=
  crc32_step (crc32_step (crc32_step (crc32_step (crc32_step (crc32_step
    (crc32_step (crc32_step (c ^^^ b % 256))))))))

/-- CRC-32/ISO-HDLC of a byte list (`crc32fast::Hasher`). -/
def crc32_digest (data : List Nat) : Nat :=
  (data.foldl crc32_update_byte 0xFFFFFFFF) ^^^ 0xFFFFFFFF

/-- Split a list into chunks of `n` elements, `n` positive (the last
chunk may be short). -/
def chunksOf {α : Type} (n : Nat) : List α → List (List α)
  | [] => []
  | a :: t => (a :: t).take n :: chunksOf n (t.drop (n - 1))
termination_by l => l.length
decreasing_by
  simp only [List.length_drop, List.length_cons]
  omega

/-- Little-endian byte decomposition of `n` into `k` bytes. -/
def le_bytes (n k : Nat) : List Nat :=
  (List.range k).map fun i => n >>> (8 * i) % 256

/-- Big-endian byte decomposition of `n` into `k` bytes. -/
def be_bytes (n k : Nat) : List Nat :=
  (List.range k).map fun i => n >>> (8 * (k - 1 - i)) % 256

/-- Little-endian 32-bit word from up to four bytes. -/
def le_word (bs : List Nat) : Nat :=
  bs.getD 0 0 + bs.getD 1 0 * 256 + bs.getD 2 0 * 65536 +
    bs.getD 3 0 * 16777216

/-- Big-endian 32-bit word from up to four bytes. -/
def be_word (bs : List Nat) : Nat :=
  bs.getD 3 0 + bs.getD 2 0 * 256 + bs.getD 1 0 * 65536 +
    bs.getD 0 0 * 16777216

/-- The MD5 sine-derived round constants. -/
def md5_k : List Nat := [
  0xd76aa478, 0xe8c7b756, 0x242070db, 0xc1bdceee,
  0xf57c0faf, 0x4787c62a, 0xa8304613, 0xfd469501,
  0x698098d8, 0x8b44f7af, 0xffff5bb1, 0x895cd7be,
  0x6b901122, 0xfd987193, 0xa679438e, 0x49b40821,
  0xf61e2562, 0xc040b340, 0x265e5a51, 0xe9b6c7aa,
  0xd62f105d, 0x02441453, 0xd8a1e681, 0xe7d3fbc8,
  0x21e1cde6, 0xc33707d6, 0xf4d50d87, 0x455a14ed,
  0xa9e3e905, 0xfcefa3f8, 0x676f02d9, 0x8d2a4c8a,
  0xfffa3942, 0x8771f681, 0x6d9d6122, 0xfde5380c,
  0xa4beea44, 0x4bdecfa9, 0xf6bb4b60, 0xbebfbc70,
  0x289b7ec6, 0xeaa127fa, 0xd4ef3085, 0x04881d05,
  0xd9d4d039, 0xe6db99e5, 0x1fa27cf8, 0xc4ac5665,
  0xf4292244, 0x432aff97, 0xab9423a7, 0xfc93a039,
  0x655b59c3, 0x8f0ccc92, 0xffeff47d, 0x85845dd1,
  0x6fa87e4f, 0xfe2ce6e0, 0xa3014314, 0x4e0811a1,
  0xf7537e82, 0xbd3af235, 0x2ad7d2bb, 0xeb86d391]

/-- The MD5 per-round rotation amounts. -/
def md5_s : List Nat := [7, 12, 17, 22, 7, 12, 17, 22, 7, 12, 17, 22, 7, 12, 17, 22, 5, 9, 14, 20, 5, 9, 14, 20, 5, 9, 14, 20, 5, 9, 14, 20, 4, 11, 16, 23, 4, 11, 16, 23, 4, 11, 16, 23, 4, 11, 16, 23, 6, 10, 15, 21, 6, 10, 15, 21, 6, 10, 15, 21, 6, 10, 15, 21]

/-- One MD5 round (round index `i < 64`). -/
def md5_round (m : List Nat) (st : Nat × Nat × Nat × Nat) (i : Nat) :
    Nat × Nat × Nat × Nat :=
  let a := st.1
  let b := st.2.1
  let c := st.2.2.1
  let d := st.2.2.2
  let f :=
    if i < 16 then (b &&& c) ||| (not32 b &&& d)
    else if i < 32 then (d &&& b) ||| (not32 d &&& c)
    else if i < 48 then b ^^^ c ^^^ d
    else c ^^^ (b ||| not32 d)
  let g :=
    if i < 16 then i
    else if i < 32 then (5 * i + 1) % 16
    else if i < 48 then (3 * i + 5) % 16
    else (7 * i) % 16
  let tmp := add32 (add32 (add32 a f) (md5_k.getD i 0)) (m.getD g 0)
  (d, add32 b (rotl32 tmp (md5_s.getD i 0)), b, c)

/-- Process one 64-byte MD5 chunk. -/
def md5_chunk (st : Nat × Nat × Nat × Nat) (chunk : List Nat) :
    Nat × Nat × Nat × Nat :=
  let m := (chunksOf 4 chunk).map le_word
  let r := (List.range 64).foldl (md5_round m) st
  (add32 st.1 r.1, add32 st.2.1 r.2.1, add32 st.2.2.1 r.2.2.1,
    add32 st.2.2.2 r.2.2.2)

/-- MD5 padding: `0x80`, zeros to 56 mod 64, then the bit length as eight
little-endian bytes. -/
def md5_pad (data : List Nat) : List Nat :=
  data ++ [0x80] ++ List.replicate ((119 - data.length % 64) % 64) 0 ++
    le_bytes (data.length * 8 % 2 ^ 64) 8

/-- MD5 digest of a byte list, as 16 bytes (`md5::Md5`). -/
def md5_digest (data : List Nat) : List Nat :=
  let r := (chunksOf 64 (md5_pad data)).foldl md5_chunk
    (0x67452301, 0xefcdab89, 0x98badcfe, 0x10325476)
  le_bytes r.1 4 ++ le_bytes r.2.1 4 ++ le_bytes r.2.2.1 4 ++
    le_bytes r.2.2.2 4

/-- Extend the sixteen SHA-1 message words to eighty. -/
def sha1_extend (w : List Nat) (i : Nat) : List Nat :=
  w ++ [rotl32 ((w.getD (i - 3) 0 ^^^ w.getD (i - 8) 0) ^^^
    (w.getD (i - 14) 0 ^^^ w.getD (i - 16) 0)) 1]

/-- One SHA-1 round (round index `i < 80`). -/
def sha1_round (w : List Nat) (st : Nat × Nat × Nat × Nat × Nat) (i : Nat) :
    Nat × Nat × Nat × Nat × Nat :=
  let a := st.1
  let b := st.2.1
  let c := st.2.2.1
  let d := st.2.2.2.1
  let e := st.2.2.2.2
  let f :=
    if i < 20 then (b &&& c) ||| (not32 b &&& d)
    else if i < 40 then b ^^^ c ^^^ d
    else if i < 60 then (b &&& c) ||| (b &&& d) ||| (c &&& d)
    else b ^^^ c ^^^ d
  let k :=
    if i < 20 then 0x5A827999
    else if i < 40 then 0x6ED9EBA1
    else if i < 60 then 0x8F1BBCDC
    else 0xCA62C1D6
  let tmp := add32 (add32 (add32 (add32 (rotl32 a 5) f) e) k) (w.getD i 0)
  (tmp, a, rotl32 b 30, c, d)

/-- Process one 64-byte SHA-1 chunk. -/
def sha1_chunk (st : Nat × Nat × Nat × Nat × Nat) (chunk : List Nat) :
    Nat × Nat × Nat × Nat × Nat :=
  let w16 := (chunksOf 4 chunk).map be_word
  let w := (List.range 64).foldl (fun acc j => sha1_extend acc (j + 16)) w16
  let r := (List.range 80).foldl (sha1_round w) st
  (add32 st.1 r.1, add32 st.2.1 r.2.1, add32 st.2.2.1 r.2.2.1,
    add32 st.2.2.2.1 r.2.2.2.1, add32 st.2.2.2.2 r.2.2.2.2)

/-- SHA-1 padding: `0x80`, zeros to 56 mod 64, then the bit length as
eight big-endian bytes. -/
def sha1_pad (data : List Nat) : List Nat :=
  data ++ [0x80] ++ List.replicate ((119 - data.length % 64) % 64) 0 ++
    be_bytes (data.length * 8 % 2 ^ 64) 8

/-- SHA-1 digest of a byte list, as 20 bytes (`sha1::Sha1`). -/
def sha1_digest (data : List Nat) : List Nat :=
  let r := (chunksOf 64 (sha1_pad data)).foldl sha1_chunk
    (0x67452301, 0xEFCDAB89, 0x98BADCFE, 0x10325476, 0xC3D2E1F0)
  be_bytes r.1 4 ++ be_bytes r.2.1 4 ++ be_bytes r.2.2.1 4 ++
    be_bytes r.2.2.2.1 4 ++ be_bytes r.2.2.2.2 4

/-- The sixteen uppercase hexadecimal digits. -/
def hexUpperDigits : List Char := "0123456789ABCDEF".data

/-- The sixteen lowercase hexadecimal digits. -/
def hexLowerDigits : List Char := "0123456789abcdef".data

/-- Uppercase hexadecimal digit of a nibble. -/
def hexDigitUpper (n : Nat) : Char := hexUpperDigits.getD n '0'

/-- Lowercase hexadecimal digit of a nibble. -/
def hexDigitLower (n : Nat) : Char := hexLowerDigits.getD n '0'

/-- Rust `format!("{:08X}", v)` for a `u32` value: eight uppercase hex
digits, zero padded, most significant nibble first. -/
def format_hex_upper8 (n : Nat) : String :=
  String.mk ((List.range 8).map fun i => hexDigitUpper (n >>> (4 * (7 - i)) % 16))

/-- Rust `format!("{:x}", digest)` on a byte array: two lowercase hex
digits per byte. -/
def bytes_to_hex_lower (bs : List Nat) : String :=
  String.mk ((bs.map fun b => [hexDigitLower (b / 16 % 16),
    hexDigitLower (b % 16)]).flatten)

/-- Result of triple-hash computation (`hash.rs`, `RomHashes`). -/
structure RomHashes where
  crc32 : String
  md5 : String
  sha1 : String
  deriving Repr, DecidableEq

/-- `hash_reader` (`hash.rs` lines 14-38): one pass over the bytes
feeding all three digests, formatted as in the source
(`{:08X}` / `{:x}` / `{:x}`). -/
def hash_reader (data : List Nat) : RomHashes :=
  { crc32 := format_hex_upper8 (crc32_digest data),
    md5 := bytes_to_hex_lower (md5_digest data),
    sha1 := bytes_to_hex_lower (sha1_digest data) }

/-- Rust `str::to_lowercase()` (per-character; the multi-character
Unicode special cases do not arise for ASCII paths and hex digits). -/
def string_to_lower (s : String) : String :=
  String.mk (s.data.map Char.toLower)

/-- Rust `str::to_uppercase()` (per-character, as above). -/
def string_to_upper (s : String) : String :=
  String.mk (s.data.map Char.toUpper)

/-- Rust `str::ends_with(suffix)`. -/
def string_ends_with (s suffix : String) : Bool :=
  suffix.data.isSuffixOf s.data

/-- A filesystem object presented to `open_rom_reader`: its path, its raw
bytes, and — when the raw bytes form a valid zip archive — the
decompressed payloads of its entries in archive index order (the `zip`
crate is an external collaborator). -/
structure FsFile where
  path : String
  data : List Nat
  zip_entries : Option (List (List Nat))
  deriving Repr, DecidableEq

/-- `open_rom_reader` (`hash.rs` lines 41-58): a path whose lowercased
form ends in `".zip"` is opened as an archive — failing on an invalid or
empty archive, else yielding the first entry by index — and any other
path yields the file's own bytes. -/
def open_rom_reader (f : FsFile) : Except String (List Nat) :=
  if string_ends_with (string_to_lower f.path) ".zip" then
    match f.zip_entries with
    | none => .error "invalid Zip archive"
    | some [] => .error "Empty zip archive"
    | some (first :: _) => .ok first
  else
    .ok f.data

/-- `compute_triple_hash` (`hash.rs` lines 64-67). -/
def compute_triple_hash (f : FsFile) : Except String RomHashes :=
  match open_rom_reader f with
  | .error e => .error e
  | .ok data => .ok (hash_reader data)

/-! ### C7: determinism and the zip-container convention -/

/-- **C7.** `compute_triple_hash` is deterministic — files with identical
path, bytes and archive structure hash to identical CRC32/MD5/SHA1
strings; a path whose lowercased extension is `".zip"` hashes exactly the
bytes of the first contained entry by archive index order, so a zip whose
single payload is `p` hashes like a plain file with bytes `p`; a non-zip
path hashes its own bytes; and an empty archive is the classified failure
`"Empty zip archive"`. -/
theorem compute_triple_hash_spec (f g : FsFile) :
    (f.path = g.path → f.data = g.data → f.zip_entries = g.zip_entries →
      compute_triple_hash f = compute_triple_hash g)
    ∧ (∀ e rest, string_ends_with (string_to_lower f.path) ".zip" = true →
        f.zip_entries = some (e :: rest) →
        compute_triple_hash f = .ok (hash_reader e))
    ∧ (string_ends_with (string_to_lower f.path) ".zip" = false →
        compute_triple_hash f = .ok (hash_reader f.data))
    ∧ (∀ payload, string_ends_with (string_to_lower f.path) ".zip" = true →
        f.zip_entries = some [payload] →
        string_ends_with (string_to_lower g.path) ".zip" = false →
        g.data = payload →
        compute_triple_hash f = compute_triple_hash g)
    ∧ (string_ends_with (string_to_lower f.path) ".zip" = true →
        f.zip_entries = some [] →
        compute_triple_hash f = .error "Empty zip archive") := by
  have hzip : ∀ e rest,
      string_ends_with (string_to_lower f.path) ".zip" = true →
      f.zip_entries = some (e :: rest) →
      compute_triple_hash f = .ok (hash_reader e) := by
    intro e rest hext hentries
    simp [compute_triple_hash, open_rom_reader, hext, hentries]
  have hplain : ∀ h : FsFile,
      string_ends_with (string_to_lower h.path) ".zip" = false →
      compute_triple_hash h = .ok (hash_reader h.data) := by
    intro h hext
    simp [compute_triple_hash, open_rom_reader, hext]
  refine ⟨?_, hzip, hplain f, ?_, ?_⟩
  · intro h1 h2 h3
    have : f = g := by
      cases f
      cases g
      simp_all
    rw [this]
  · intro payload hext hentries hgext hgdata
    rw [hzip payload [] hext hentries, hplain g hgext, hgdata]
  · intro hext hentries
    simp [compute_triple_hash, open_rom_reader, hext, hentries]

/-- A zip archive with one payload entry, for the C7 witness. -/
def zipWitnessFile : FsFile :=
  { path := "Game.ZIP", data := [9, 9, 9], zip_entries := some [[1, 2, 3]] }

/-- A plain file holding the same payload bytes, for the C7 witness. -/
def plainWitnessFile : FsFile :=
  { path := "game.bin", data := [1, 2, 3], zip_entries := none }

/-- Witness for C7: hashing the concrete one-entry zip equals hashing its
payload directly. -/
theorem compute_triple_hash_spec_witness :
    compute_triple_hash zipWitnessFile = compute_triple_hash plainWitnessFile :=
  (compute_triple_hash_spec zipWitnessFile plainWitnessFile).2.2.2.1
    [1, 2, 3] (by decide) rfl (by decide) rfl

/-! ## Logiqx DAT parser (`src-tauri/src/metadata/dat.rs`, lines 116-247)

`parse_dat_file` is a streaming walk over `quick_xml` events.  The
tokenizer is an external crate; the repository's state machine is
embedded below over a list of already-unescaped XML events (a reader
error aborts the parse in the source and no event list models it). -/

/-- An XML event as delivered by the `quick_xml` reader, attributes
already unescaped. -/
inductive XmlEvent where
  | start (tag : String) (attrs : List (String × String))
  | emptyTag (tag : String) (attrs : List (String × String))
  | text (content : String)
  | endTag (tag : String)
  deriving Repr, DecidableEq

/-- Parsed DAT header info (`dat.rs`, `DatHeader`). -/
structure DatHeader where
  name : String
  description : Option String
  version : Option String
  deriving Repr, DecidableEq

/-- A single ROM entry from a DAT file (`dat.rs`, `DatEntry`). -/
structure DatEntry where
  game_name : String
  rom_name : String
  size : Option Int
  crc32 : Option String
  md5 : Option String
  sha1 : Option String
  status : Option String
  deriving Repr, DecidableEq

/-- Result of parsing a DAT file (`dat.rs`, `ParsedDat`). -/
structure ParsedDat where
  header : DatHeader
  entries : List DatEntry
  deriving Repr, DecidableEq

/-- Rust `str::parse::<i64>().ok()`: optional sign, one or more ASCII
digits, and the value must fit in an `i64`. -/
def parse_i64? (s : String) : Option Int :=
  match s.data with
  | [] => none
  | c :: rest =>
    let sign : Int := if c = '-' then -1 else 1
    let digits := if c = '-' ∨ c = '+' then rest else c :: rest
    if digits = [] then none
    else if digits.all Char.isDigit then
      let v : Nat := digits.foldl (fun acc d => acc * 10 + (d.toNat - 48)) 0
      let i : Int := sign * (v : Int)
      if -(2 ^ 63) ≤ i ∧ i ≤ 2 ^ 63 - 1 then some i else none
    else none

/-- The parser's section state (`dat.rs`, `enum Section`). -/
inductive DatSection where
  | none
  | header
  | game
  deriving Repr, DecidableEq

/-- The accumulating state of the `parse_dat_file` event loop.  The
`sect` field is the source's `section` variable. -/
structure DatParseState where
  header : DatHeader
  entries : List DatEntry
  sect : DatSection
  current_element : String
  current_game_name : String
  deriving Repr, DecidableEq

/-- Build a `DatEntry` from the attributes of an empty `<rom .../>` tag
(`dat.rs` lines 163-215): CRC32 is stored uppercased, MD5/SHA1
lowercased, size parsed as `i64`, later duplicate attributes
overwriting earlier ones as in the source's loop. -/
def rom_entry_from_attrs (game_name : String)
    (attrs : List (String × String)) : DatEntry :=
  attrs.foldl
    (fun e (kv : String × String) =>
      match kv.1 with
      | "name" => { e with rom_name := kv.2 }
      | "size" => { e with size := parse_i64? kv.2 }
      | "crc" => { e with crc32 := some (string_to_upper kv.2) }
      | "md5" => { e with md5 := some (string_to_lower kv.2) }
      | "sha1" => { e with sha1 := some (string_to_lower kv.2) }
      | "status" => { e with status := some kv.2 }
      | _ => e)
    { game_name := game_name, rom_name := "", size := none, crc32 := none,
      md5 := none, sha1 := none, status := none }

/-- One step of the `parse_dat_file` event loop (`dat.rs` lines 138-244). -/
def parse_dat_step (st : DatParseState) (ev : XmlEvent) : DatParseState :=
  match ev with
  | .start tag attrs =>
    let st :=
      match tag with
      | "header" => { st with sect := .header }
      | "game" | "machine" =>
        { st with
          sect := .game
          current_game_name :=
            attrs.foldl
              (fun acc (kv : String × String) =>
                if kv.1 = "name" then kv.2 else acc) "" }
      | _ => st
    { st with current_element := tag }
  | .emptyTag tag attrs =>
    if tag = "rom" ∧ st.sect = .game then
      { st with entries := st.entries ++
          [rom_entry_from_attrs st.current_game_name attrs] }
    else st
  | .text content =>
    if st.sect = .header then
      match st.current_element with
      | "name" => { st with header := { st.header with name := content } }
      | "description" =>
        { st with header := { st.header with description := some content } }
      | "version" =>
        { st with header := { st.header with version := some content } }
      | _ => st
    else st
  | .endTag tag =>
    match tag with
    | "header" => { st with sect := .none }
    | "game" | "machine" => { st with sect := .none }
    | _ => st

/-- `parse_dat_file` over a tokenized event stream: fold the event loop
from the initial state and return header and entries. -/
def parse_dat_events (events : List XmlEvent) : ParsedDat :=
  let st := events.foldl parse_dat_step
    { header := { name := "", description := none, version := none },
      entries := [], sect := .none, current_element := "",
      current_game_name := "" }
  { header := st.header, entries := st.entries }

/-! ### C10: CRC32 formatting versus DAT CRC normalization -/

theorem crc32_step_lt {c : Nat} (h : c < 2 ^ 32) : crc32_step c < 2 ^ 32 := by
  unfold crc32_step
  split
  · exact Nat.xor_lt_two_pow (lt_of_le_of_lt (Nat.div_le_self c 2) h)
      (by norm_num)
  · exact lt_of_le_of_lt (Nat.div_le_self c 2) h

theorem crc32_update_byte_lt {c : Nat} (b : Nat) (h : c < 2 ^ 32) :
    crc32_update_byte c b < 2 ^ 32 := by
  unfold crc32_update_byte
  have h0 : c ^^^ b % 256 < 2 ^ 32 :=
    Nat.xor_lt_two_pow h (lt_trans (Nat.mod_lt b (by norm_num)) (by norm_num))
  exact crc32_step_lt (crc32_step_lt (crc32_step_lt (crc32_step_lt
    (crc32_step_lt (crc32_step_lt (crc32_step_lt (crc32_step_lt h0)))))))

theorem crc32_foldl_lt (l : List Nat) :
    ∀ c, c < 2 ^ 32 → l.foldl crc32_update_byte c < 2 ^ 32 := by
  induction l with
  | nil => intro c h; exact h
  | cons b t ih =>
    intro c h
    exact ih _ (crc32_update_byte_lt b h)

theorem crc32_digest_lt (data : List Nat) : crc32_digest data < 2 ^ 32 :=
  Nat.xor_lt_two_pow (crc32_foldl_lt data 0xFFFFFFFF (by norm_num))
    (by norm_num)

theorem hexDigitUpper_mem (n : Nat) : hexDigitUpper n ∈ hexUpperDigits := by
  unfold hexDigitUpper
  by_cases h : n < hexUpperDigits.length
  · rw [List.getD_eq_getElem _ _ h]
    exact List.getElem_mem h
  · rw [List.getD_eq_default _ _ (Nat.le_of_not_lt h)]
    decide

theorem format_hex_upper8_length (n : Nat) :
    (format_hex_upper8 n).length = 8 := by
  unfold format_hex_upper8
  rw [String.length_mk, List.length_map, List.length_range]

theorem format_hex_upper8_mem (n : Nat) :
    ∀ c ∈ (format_hex_upper8 n).data, c ∈ hexUpperDigits := by
  intro c hc
  replace hc : c ∈ (List.range 8).map
      (fun i => hexDigitUpper (n >>> (4 * (7 - i)) % 16)) := hc
  obtain ⟨i, -, rfl⟩ := List.mem_map.mp hc
  exact hexDigitUpper_mem _

/-- **C10.** The hash engine's CRC32 string is always exactly eight
uppercase hexadecimal digits (zero-padded `{:08X}` of a `u32`), whereas
`parse_dat_file` stores a DAT rom's `crc` attribute uppercased verbatim,
without any padding; hence an equality match between the two forces the
DAT attribute to already be eight digits wide. -/
theorem crc32_format_contract (data : List Nat) (v g : String) :
    (hash_reader data).crc32.length = 8
    ∧ (∀ c ∈ (hash_reader data).crc32.data, c ∈ hexUpperDigits)
    ∧ (parse_dat_events
        [.start "datafile" [], .start "game" [("name", g)],
         .emptyTag "rom" [("crc", v)], .endTag "game"]).entries.map (·.crc32)
      = [some (string_to_upper v)]
    ∧ ((hash_reader data).crc32 = string_to_upper v →
        (string_to_upper v).length = 8) := by
  refine ⟨format_hex_upper8_length _,
    fun c hc => format_hex_upper8_mem _ c hc, ?_, ?_⟩
  · rfl
  · intro h
    rw [← h]
    exact format_hex_upper8_length _

/-- Witness for C10: the CRC32 of the empty input is the zero-padded
`"00000000"`, eight digits wide. -/
theorem crc32_format_contract_witness :
    (string_to_upper "00000000").length = 8 :=
  (crc32_format_contract [] "00000000" "Game").2.2.2 (by decide)

/-! ## DAT import (`src-tauri/src/metadata/dat.rs`, lines 250-338)

`import_dat_file` issues a sequence of separate SQL statements on the
pool — a `DELETE` for the `(platform_slug, dat_type)` key, the
`dat_files` insert, then one 500-row `INSERT` per batch — with **no
wrapping transaction**.  The model numbers the statements and lets an
optional `fail_at` pick the first statement that errors, in which case
the function returns with the effects of the earlier statements already
committed (exactly the early-`?`-return of the source).  The
`ON DELETE CASCADE` from `dat_files` to `dat_entries` lives in the
migrations, which are not under `src/`; it is modelled from the spec
("replacing a ReferenceSet for the same key atomically deletes and
re-inserts all its entries"). -/

/-- A row of the `dat_files` table. -/
structure DatFileRow where
  id : Int
  name : String
  description : Option String
  version : Option String
  dat_type : String
  platform_slug : String
  entry_count : Int
  deriving Repr, DecidableEq

/-- The DAT catalog store. -/
structure DatDb where
  dat_files : List DatFileRow
  dat_entries : List DatEntryRow
  next_dat_file_id : Int
  next_dat_entry_id : Int
  deriving Repr, DecidableEq

/-- `DELETE FROM dat_files WHERE platform_slug = ? AND dat_type = ?`,
with the schema's cascade removing the deleted files' entries. -/
def delete_dat_files (db : DatDb) (platform_slug dat_type : String) :
    DatDb :=
  let removed_ids := (db.dat_files.filter fun f =>
    f.platform_slug == platform_slug && f.dat_type == dat_type).map (·.id)
  { db with
    dat_files := db.dat_files.filter fun f =>
      !(f.platform_slug == platform_slug && f.dat_type == dat_type)
    dat_entries := db.dat_entries.filter fun e =>
      !(removed_ids.contains e.dat_file_id) }

/-- One batched `INSERT INTO dat_entries ... VALUES (...),(...),...`
statement: every row of the chunk is inserted under the new file id. -/
def insert_entries_batch (db : DatDb) (dat_file_id : Int)
    (chunk : List DatEntry) : DatDb :=
  chunk.foldl
    (fun acc e =>
      { acc with
        dat_entries := acc.dat_entries ++
          [{ id := acc.next_dat_entry_id, dat_file_id := dat_file_id,
             game_name := e.game_name, rom_name := e.rom_name,
             size := e.size, crc32 := e.crc32, md5 := e.md5,
             sha1 := e.sha1, status := e.status }]
        next_dat_entry_id := acc.next_dat_entry_id + 1 })
    db

/-- The batch loop of `import_dat_file` (`dat.rs` lines 300-335), one
statement per 500-row chunk, numbered from `step`; a failing statement
returns immediately with the earlier batches committed. -/
def import_batches (db : DatDb) (dat_file_id : Int)
    (batches : List (List DatEntry)) (step : Nat) (fail_at : Option Nat) :
    DatDb × Bool :=
  match batches with
  | [] => (db, true)
  | chunk :: rest =>
    if fail_at = some step then (db, false)
    else import_batches (insert_entries_batch db dat_file_id chunk)
      dat_file_id rest (step + 1) fail_at

/-- `import_dat_file` (`dat.rs` lines 250-338): statement 0 deletes the
prior set for the key, statement 1 inserts the `dat_files` row, and
statements 2, 3, ... insert the parsed entries in 500-row batches.
Returns the new `dat_files` id, or `none` when the statement numbered
`fail_at` failed — the earlier statements stay committed because no
transaction wraps them. -/
def import_dat_file (db : DatDb) (parsed : ParsedDat)
    (dat_type platform_slug : String) (fail_at : Option Nat) :
    DatDb × Option Int :=
  if fail_at = some 0 then (db, none)
  else
    let db0 := delete_dat_files db platform_slug dat_type
    if fail_at = some 1 then (db0, none)
    else
      let dat_file_id := db0.next_dat_file_id
      let db1 := { db0 with
        dat_files := db0.dat_files ++
          [{ id := dat_file_id, name := parsed.header.name,
             description := parsed.header.description,
             version := parsed.header.version, dat_type := dat_type,
             platform_slug := platform_slug,
             entry_count := (parsed.entries.length : Int) }]
        next_dat_file_id := dat_file_id + 1 }
      let r := import_batches db1 dat_file_id (chunksOf 500 parsed.entries)
        2 fail_at
      (r.1, if r.2 then some dat_file_id else none)

/-! ### C8: delete-then-insert without a transaction -/

theorem chunksOf_flatten {α : Type} (n : Nat) (hn : 0 < n) :
    ∀ l : List α, (chunksOf n l).flatten = l
  | [] => by simp [chunksOf]
  | a :: t => by
    rw [chunksOf, List.flatten_cons,
      chunksOf_flatten n hn (t.drop (n - 1))]
    cases n with
    | zero => exact absurd hn (lt_irrefl 0)
    | succ m =>
      rw [List.take_succ_cons, Nat.succ_sub_one, List.cons_append,
        List.take_append_drop]
termination_by l => l.length
decreasing_by
  simp only [List.length_drop, List.length_cons]
  omega

theorem chunksOf_mem_length_le {α : Type} (n : Nat) :
    ∀ l : List α, ∀ c ∈ chunksOf n l, c.length ≤ n
  | [] => by simp [chunksOf]
  | a :: t => by
    intro c hc
    rw [chunksOf] at hc
    rcases List.mem_cons.mp hc with rfl | h2
    · rw [List.length_take]
      exact min_le_left _ _
    · exact chunksOf_mem_length_le n (t.drop (n - 1)) c h2
termination_by l => l.length
decreasing_by
  simp only [List.length_drop, List.length_cons]
  omega

/-- The non-key columns of a `dat_entries` row, for comparing stored rows
with parsed entries. -/
def entry_payload (e : DatEntryRow) : DatEntry :=
  { game_name := e.game_name, rom_name := e.rom_name, size := e.size,
    crc32 := e.crc32, md5 := e.md5, sha1 := e.sha1, status := e.status }

theorem insert_entries_batch_dat_files (fid : Int) (chunk : List DatEntry) :
    ∀ db : DatDb, (insert_entries_batch db fid chunk).dat_files
      = db.dat_files := by
  induction chunk with
  | nil => intro db; rfl
  | cons e rest ih =>
    intro db
    rw [insert_entries_batch] at *
    exact ih _

theorem insert_entries_batch_cons (db : DatDb) (fid : Int) (e : DatEntry)
    (rest : List DatEntry) :
    insert_entries_batch db fid (e :: rest)
      = insert_entries_batch
          { db with
            dat_entries := db.dat_entries ++
              [{ id := db.next_dat_entry_id, dat_file_id := fid,
                 game_name := e.game_name, rom_name := e.rom_name,
                 size := e.size, crc32 := e.crc32, md5 := e.md5,
                 sha1 := e.sha1, status := e.status }]
            next_dat_entry_id := db.next_dat_entry_id + 1 } fid rest := rfl

theorem insert_entries_batch_filter (fid : Int) (chunk : List DatEntry) :
    ∀ db : DatDb,
      ((insert_entries_batch db fid chunk).dat_entries.filter
        (fun e => e.dat_file_id == fid)).map entry_payload
      = (db.dat_entries.filter (fun e => e.dat_file_id == fid)).map
          entry_payload ++ chunk := by
  induction chunk with
  | nil => intro db; simp [insert_entries_batch]
  | cons e rest ih =>
    intro db
    rw [insert_entries_batch_cons, ih]
    simp only [List.filter_append, List.map_append]
    have hrow : (List.filter (fun e' => e'.dat_file_id == fid)
        [({ id := db.next_dat_entry_id, dat_file_id := fid,
            game_name := e.game_name, rom_name := e.rom_name,
            size := e.size, crc32 := e.crc32, md5 := e.md5,
            sha1 := e.sha1, status := e.status } : DatEntryRow)]).map
          entry_payload = [e] := by
      simp [entry_payload]
    rw [hrow, List.append_assoc, List.singleton_append]

theorem import_batches_none (fid : Int) (batches : List (List DatEntry)) :
    ∀ (db : DatDb) (step : Nat),
      import_batches db fid batches step none
        = (batches.foldl (fun acc c => insert_entries_batch acc fid c) db,
            true) := by
  induction batches with
  | nil => intro db step; rfl
  | cons c rest ih =>
    intro db step
    rw [import_batches, if_neg (by simp), ih]
    rfl

theorem batches_fold_dat_files (fid : Int) (batches : List (List DatEntry)) :
    ∀ db : DatDb,
      (batches.foldl (fun acc c => insert_entries_batch acc fid c)
        db).dat_files = db.dat_files := by
  induction batches with
  | nil => intro db; rfl
  | cons c rest ih =>
    intro db
    rw [List.foldl_cons, ih, insert_entries_batch_dat_files]

theorem batches_fold_filter (fid : Int) (batches : List (List DatEntry)) :
    ∀ db : DatDb,
      ((batches.foldl (fun acc c => insert_entries_batch acc fid c)
          db).dat_entries.filter (fun e => e.dat_file_id == fid)).map
        entry_payload
      = (db.dat_entries.filter (fun e => e.dat_file_id == fid)).map
          entry_payload ++ batches.flatten := by
  induction batches with
  | nil => intro db; simp
  | cons c rest ih =>
    intro db
    rw [List.foldl_cons, ih, insert_entries_batch_filter,
      List.flatten_cons, List.append_assoc]

/-- A DAT catalog already holding one reference set for the key
`("gb", "no-intro")`: one `dat_files` row and one entry under it. -/
def c8Db : DatDb :=
  { dat_files := [{ id := 1, name := "Old DAT", description := none,
                    version := none, dat_type := "no-intro",
                    platform_slug := "gb", entry_count := 1 }]
    dat_entries := [{ id := 1, dat_file_id := 1, game_name := "Old Game",
                      rom_name := "old.gb", size := some 1024,
                      crc32 := some "DEADBEEF", md5 := none, sha1 := none,
                      status := none }]
    next_dat_file_id := 2
    next_dat_entry_id := 2 }

/-- A freshly parsed DAT replacing that set. -/
def c8Parsed : ParsedDat :=
  { header := { name := "New DAT", description := none, version := some "2" }
    entries := [{ game_name := "New Game", rom_name := "new.gb",
                  size := some 2048, crc32 := some "CAFEBABE", md5 := none,
                  sha1 := none, status := none }] }

/-- Counterexample for C8: no transaction wraps `import_dat_file`, so if
the `dat_files` insert (statement 1) fails after the `DELETE`
(statement 0) committed, the call returns an error with the old
reference set for `("gb", "no-intro")` already gone and the new set
never inserted — a half-replaced catalog is observable. -/
theorem import_dat_file_midway_failure_observable :
    (import_dat_file c8Db c8Parsed "no-intro" "gb" (some 1)).2 = none
    ∧ (import_dat_file c8Db c8Parsed "no-intro" "gb" (some 1)).1.dat_files
        = []
    ∧ (import_dat_file c8Db c8Parsed "no-intro" "gb" (some 1)).1.dat_entries
        = []
    ∧ c8Db.dat_files ≠ [] ∧ c8Db.dat_entries ≠ [] := by
  refine ⟨rfl, by decide, by decide, by decide, by decide⟩

/-- C8 (amended): `import_dat_file` replaces the reference set for a
`(platform_slug, dat_type)` key by delete-then-insert in 500-row
batches, but as separate statements with **no wrapping transaction**.
When every statement succeeds the replacement is complete: the call
returns the fresh `dat_files` id, the surviving `dat_files` rows are
exactly the rows of other keys plus the new header (whose
`entry_count` is the parsed entry count), the entries stored under the
new id are exactly the parsed entries in order, and every insert batch
holds at most 500 rows.  But on an error the earlier statements stay
committed: a failure of the `dat_files` insert (statement 1) leaves the
catalog at `delete_dat_files` — old set deleted, new set absent. -/
theorem import_dat_file_replace_spec (db : DatDb) (parsed : ParsedDat)
    (dat_type platform_slug : String)
    (hfresh : ∀ e ∈ db.dat_entries, e.dat_file_id ≠ db.next_dat_file_id) :
    ((import_dat_file db parsed dat_type platform_slug none).2
        = some db.next_dat_file_id)
    ∧ ((import_dat_file db parsed dat_type platform_slug none).1.dat_files
        = (delete_dat_files db platform_slug dat_type).dat_files ++
          [{ id := db.next_dat_file_id, name := parsed.header.name,
             description := parsed.header.description,
             version := parsed.header.version, dat_type := dat_type,
             platform_slug := platform_slug,
             entry_count := (parsed.entries.length : Int) }])
    ∧ (((import_dat_file db parsed dat_type platform_slug
          none).1.dat_entries.filter
            (fun e => e.dat_file_id == db.next_dat_file_id)).map
          entry_payload
        = parsed.entries)
    ∧ (∀ c ∈ chunksOf 500 parsed.entries, c.length ≤ 500)
    ∧ (import_dat_file db parsed dat_type platform_slug (some 1)
        = (delete_dat_files db platform_slug dat_type, none)) := by
  have hrun : import_dat_file db parsed dat_type platform_slug none
      = ((import_batches
            { delete_dat_files db platform_slug dat_type with
              dat_files :=
                (delete_dat_files db platform_slug dat_type).dat_files ++
                [{ id := db.next_dat_file_id, name := parsed.header.name,
                   description := parsed.header.description,
                   version := parsed.header.version, dat_type := dat_type,
                   platform_slug := platform_slug,
                   entry_count := (parsed.entries.length : Int) }]
              next_dat_file_id := db.next_dat_file_id + 1 }
            db.next_dat_file_id (chunksOf 500 parsed.entries) 2 none).1,
          if (import_batches
            { delete_dat_files db platform_slug dat_type with
              dat_files :=
                (delete_dat_files db platform_slug dat_type).dat_files ++
                [{ id := db.next_dat_file_id, name := parsed.header.name,
                   description := parsed.header.description,
                   version := parsed.header.version, dat_type := dat_type,
                   platform_slug := platform_slug,
                   entry_count := (parsed.entries.length : Int) }]
              next_dat_file_id := db.next_dat_file_id + 1 }
            db.next_dat_file_id (chunksOf 500 parsed.entries) 2 none).2
          then some db.next_dat_file_id else none) := rfl
  rw [hrun, import_batches_none]
  have hnil : (delete_dat_files db platform_slug
      dat_type).dat_entries.filter
        (fun e => e.dat_file_id == db.next_dat_file_id) = [] := by
    refine List.filter_eq_nil_iff.mpr (fun e he => ?_)
    have hmem : e ∈ db.dat_entries := List.mem_of_mem_filter he
    simpa using hfresh e hmem
  refine ⟨rfl, batches_fold_dat_files _ _ _, ?_,
    chunksOf_mem_length_le 500 parsed.entries, rfl⟩
  rw [batches_fold_filter]
  have hentries : ({ delete_dat_files db platform_slug dat_type with
      dat_files :=
        (delete_dat_files db platform_slug dat_type).dat_files ++
        [{ id := db.next_dat_file_id, name := parsed.header.name,
           description := parsed.header.description,
           version := parsed.header.version, dat_type := dat_type,
           platform_slug := platform_slug,
           entry_count := (parsed.entries.length : Int) }]
      next_dat_file_id := db.next_dat_file_id + 1 } : DatDb).dat_entries
      = (delete_dat_files db platform_slug dat_type).dat_entries := rfl
  rw [hentries, hnil, chunksOf_flatten 500 (by decide)]
  rfl

/-- Witness for C8: on the concrete catalog `c8Db` the freshness
hypothesis holds, and a failure at statement 1 leaves exactly the
deleted state with no id returned. -/
theorem import_dat_file_replace_spec_witness :
    import_dat_file c8Db c8Parsed "no-intro" "gb" (some 1)
      = (delete_dat_files c8Db "gb" "no-intro", none) :=
  (import_dat_file_replace_spec c8Db c8Parsed "no-intro" "gb"
    (by decide)).2.2.2.2

end RommBuddy

